import Mathlib

/-!
Shallow embedding of the CHIP-8 interpreter core (`src/chip8.rs`, `src/keypad.rs`).

Machine integers are modelled as `Nat` with explicit `% 2^w` where the Rust
code performs wrapping arithmetic.  Rust's implicit slice bounds checks (which
panic and abort the process on an out-of-range index) are modelled by running
the fallible operations in `Except Chip8Err`; `.error .panic` corresponds to a
Rust panic, which halts the machine.
-/

/-- A Rust panic (index out of bounds / integer underflow in debug builds). -/
inductive Chip8Err where
  | panic
deriving DecidableEq, Repr

/-- The machine state of `struct Chip8` (the SDL canvas and event pump, which
are pure I/O collaborators, are not part of the machine state).  `v` are the
sixteen 8-bit registers, `stack` the 32-entry call stack, `frame` the 32x64
framebuffer (row, column), `memory` the 4096 bytes, `keypad` the single
`Option<u8>` key slot of `struct Keypad`. -/
structure Chip8 where
  v : Nat → Nat
  i : Nat
  stack : Nat → Nat
  sp : Nat
  dt : Nat
  st : Nat
  frame : Nat → Nat → Nat
  pc : Nat
  memory : Nat → Nat
  keypad : Option Nat

/-- The pc value after `next_program`: `self.pc = (self.pc + 2).min(0xFFF)`. -/
def nextPC (p : Nat) : Nat := min (p + 2) 0xFFF

/-- Embeds `fn next_program(&mut self) { self.pc = (self.pc + 2).min(0xFFF) }`. -/
def next_program (s : Chip8) : Chip8 := { s with pc := nextPC s.pc }

/-- A read of `self.memory[a]`: Rust panics when `a` is not below 4096. -/
def memRead (s : Chip8) (a : Nat) : Except Chip8Err Nat :=
  if a < 4096 then .ok (s.memory a) else .error .panic

/-- A write `self.memory[a] = d`: Rust panics when `a` is not below 4096. -/
def memWrite (s : Chip8) (a d : Nat) : Except Chip8Err Chip8 :=
  if a < 4096 then .ok { s with memory := Function.update s.memory a d }
  else .error .panic

/-- Embeds `Keypad::is_pressed`: `if let Some(i) = self.key { i == key } else { false }`. -/
def is_pressed (key : Option Nat) (k : Nat) : Bool :=
  match key with
  | some i => i == k
  | none => false

/-- Embeds `ret` (00EE): `sp -= 1; pc = stack[sp]; next_program()`.
With `sp = 0` the `u8` subtraction panics in debug builds (and in release
builds wraps to 255, so the 32-entry stack index panics); with `sp > 32` the
stack index panics.  Either way execution panics unless `1 ≤ sp ≤ 32`. -/
def ret (s : Chip8) : Except Chip8Err Chip8 :=
  if 1 ≤ s.sp ∧ s.sp - 1 < 32 then
    .ok (next_program { s with sp := s.sp - 1, pc := s.stack (s.sp - 1) })
  else .error .panic

/-- Embeds `cls` (00E0). -/
def cls (s : Chip8) : Except Chip8Err Chip8 :=
  .ok (next_program { s with frame := fun _ _ => 0 })

/-- Embeds `jp_addr` (1nnn): `pc = nnn`. -/
def jp_addr (nnn : Nat) (s : Chip8) : Except Chip8Err Chip8 :=
  .ok { s with pc := nnn }

/-- Embeds `call_addr` (2nnn): `stack[sp] = pc; sp += 1; pc = nnn`.
The stack index panics when `sp` is not below 32. -/
def call_addr (nnn : Nat) (s : Chip8) : Except Chip8Err Chip8 :=
  if s.sp < 32 then
    .ok { s with stack := Function.update s.stack s.sp s.pc, sp := s.sp + 1, pc := nnn }
  else .error .panic

/-- Embeds `se_vx_byte` (3xkk). -/
def se_vx_byte (x kk : Nat) (s : Chip8) : Except Chip8Err Chip8 :=
  .ok (if s.v x = kk then next_program (next_program s) else next_program s)

/-- Embeds `sne_vx_byte` (4xkk). -/
def sne_vx_byte (x kk : Nat) (s : Chip8) : Except Chip8Err Chip8 :=
  .ok (if s.v x ≠ kk then next_program (next_program s) else next_program s)

/-- Embeds `se_vx_vy` (5xy0). -/
def se_vx_vy (x y : Nat) (s : Chip8) : Except Chip8Err Chip8 :=
  .ok (if s.v x = s.v y then next_program (next_program s) else next_program s)

/-- Embeds `ld_vx_byte` (6xkk). -/
def ld_vx_byte (x kk : Nat) (s : Chip8) : Except Chip8Err Chip8 :=
  .ok (next_program { s with v := Function.update s.v x kk })

/-- Embeds `add_vx_byte` (7xkk): `v[x] = v[x].overflowing_add(kk).0`. -/
def add_vx_byte (x kk : Nat) (s : Chip8) : Except Chip8Err Chip8 :=
  .ok (next_program { s with v := Function.update s.v x ((s.v x + kk) % 256) })

/-- Embeds `ld_vx_vy` (8xy0). -/
def ld_vx_vy (x y : Nat) (s : Chip8) : Except Chip8Err Chip8 :=
  .ok (next_program { s with v := Function.update s.v x (s.v y) })

/-- Embeds `or_vx_vy` (8xy1). -/
def or_vx_vy (x y : Nat) (s : Chip8) : Except Chip8Err Chip8 :=
  .ok (next_program { s with v := Function.update s.v x (s.v x ||| s.v y) })

/-- Embeds `and_vx_vy` (8xy2). -/
def and_vx_vy (x y : Nat) (s : Chip8) : Except Chip8Err Chip8 :=
  .ok (next_program { s with v := Function.update s.v x (s.v x &&& s.v y) })

/-- Embeds `xor_vx_vy` (8xy3). -/
def xor_vx_vy (x y : Nat) (s : Chip8) : Except Chip8Err Chip8 :=
  .ok (next_program { s with v := Function.update s.v x (s.v x ^^^ s.v y) })

/-- Embeds `add_vx_vy` (8xy4): `(sum, overflow) = v[x].overflowing_add(v[y]);
v[x] = sum; v[0xF] = overflow as u8`.  Note `v[x]` is written before `v[0xF]`;
for x = 0xF the final value is the flag. -/
def add_vx_vy (x y : Nat) (s : Chip8) : Except Chip8Err Chip8 :=
  .ok (next_program { s with
    v := Function.update
      (Function.update s.v x ((s.v x + s.v y) % 256)) 15
      (if 256 ≤ s.v x + s.v y then 1 else 0) })

/-- Embeds `sub_vx_vy` (8xy5): `(result, overflow) = v[x].overflowing_sub(v[y]);
v[x] = result; v[0xF] = !overflow as u8`. -/
def sub_vx_vy (x y : Nat) (s : Chip8) : Except Chip8Err Chip8 :=
  .ok (next_program { s with
    v := Function.update
      (Function.update s.v x ((s.v x + 256 - s.v y % 256) % 256)) 15
      (if s.v x < s.v y then 0 else 1) })

/-- Embeds `shr_vx_vy` (8xy6): `v[0xF] = (v[x] & 1 == 1) as u8; v[x] >>= 1`.
The second statement re-reads the register file after the flag write. -/
def shr_vx_vy (x : Nat) (s : Chip8) : Except Chip8Err Chip8 :=
  let v1 := Function.update s.v 15 (if s.v x &&& 1 = 1 then 1 else 0)
  .ok (next_program { s with v := Function.update v1 x (v1 x / 2) })

/-- Embeds `subn_vx_vy` (8xy7): `(result, overflow) = v[y].overflowing_sub(v[x]);
v[0xF] = !overflow as u8; v[x] = result`.  The flag is written first here. -/
def subn_vx_vy (x y : Nat) (s : Chip8) : Except Chip8Err Chip8 :=
  let v1 := Function.update s.v 15 (if s.v y < s.v x then 0 else 1)
  .ok (next_program { s with
    v := Function.update v1 x ((s.v y + 256 - s.v x % 256) % 256) })

/-- Embeds `shl_vx_vy` (8xyE): `v[0xF] = (v[x] >> 7 == 1) as u8; v[x] <<= 1`. -/
def shl_vx_vy (x : Nat) (s : Chip8) : Except Chip8Err Chip8 :=
  let v1 := Function.update s.v 15 (if s.v x / 128 = 1 then 1 else 0)
  .ok (next_program { s with v := Function.update v1 x (v1 x * 2 % 256) })

/-- Embeds `sne_vx_vy` (9xy0). -/
def sne_vx_vy (x y : Nat) (s : Chip8) : Except Chip8Err Chip8 :=
  .ok (if s.v x ≠ s.v y then next_program (next_program s) else next_program s)

/-- Embeds `ld_i_addr` (Annn). -/
def ld_i_addr (nnn : Nat) (s : Chip8) : Except Chip8Err Chip8 :=
  .ok (next_program { s with i := nnn })

/-- Embeds `jp_v0_addr` (Bnnn): `pc = (v[0] as u16 + nnn).min(0xFFF)`. -/
def jp_v0_addr (nnn : Nat) (s : Chip8) : Except Chip8Err Chip8 :=
  .ok { s with pc := min (s.v 0 + nnn) 0xFFF }

/-- Embeds `rnd_vx_byte` (Cxkk): `v[x] = rand::random::<u8>() & kk`.  The random
byte is supplied as the oracle parameter `r` (taken mod 256). -/
def rnd_vx_byte (r x kk : Nat) (s : Chip8) : Except Chip8Err Chip8 :=
  .ok (next_program { s with v := Function.update s.v x (r % 256 &&& kk) })

/-- The body of the inner `for bit in 0..8` loop of `drw_vx_vy_nibble`:
`let x = (v[x].overflowing_add(bit).0 % 64); let pixel = (sprite >> (7-bit)) & 1;
v[0xF] |= frame[y][x] & pixel; frame[y][x] ^= pixel`.  Note that `v[x]` is
re-read from the current register file on every iteration. -/
def drawBitStep (x rowY sprite bit : Nat) (s : Chip8) : Chip8 :=
  let col := (s.v x + bit) % 256 % 64
  let pixel := (sprite >>> (7 - bit)) &&& 1
  let s1 := { s with v := Function.update s.v 15 (s.v 15 ||| (s.frame rowY col &&& pixel)) }
  { s1 with
    frame := Function.update s1.frame rowY (Function.update (s1.frame rowY) col (s1.frame rowY col ^^^ pixel)) }

/-- The inner `for bit in 0..8` loop, iterating `bit = c, c+1, ...` for `fuel`
steps (the loop itself is `drawBitsFrom x rowY sprite 0 8`). -/
def drawBitsFrom (x rowY sprite : Nat) : Nat → Nat → Chip8 → Chip8
  | _, 0, s => s
  | c, fuel + 1, s => drawBitsFrom x rowY sprite (c + 1) fuel (drawBitStep x rowY sprite c s)

/-- The outer `for byte in 0..n` loop of `drw_vx_vy_nibble`, iterating
`byte = row, row+1, ...` for `fuel` steps: each iteration computes
`let y = (v[y].overflowing_add(byte).0 % 32)`, fetches
`sprite = memory[(i + byte)]` (a panicking index when out of bounds), and runs
the inner bit loop. -/
def drawRowsFrom (x y : Nat) : Nat → Nat → Chip8 → Except Chip8Err Chip8
  | _, 0, s => .ok s
  | row, fuel + 1, s =>
    let rowY := (s.v y + row) % 256 % 32
    if s.i + row < 4096 then
      drawRowsFrom x y (row + 1) fuel (drawBitsFrom x rowY (s.memory (s.i + row)) 0 8 s)
    else .error .panic

/-- Embeds `drw_vx_vy_nibble` (Dxyn): `v[0xF] = 0`, then the row loop, then
`next_program`. -/
def drw_vx_vy_nibble (x y n : Nat) (s : Chip8) : Except Chip8Err Chip8 :=
  (drawRowsFrom x y 0 n { s with v := Function.update s.v 15 0 }).map next_program

/-- Embeds `skp_vx` (Ex9E). -/
def skp_vx (x : Nat) (s : Chip8) : Except Chip8Err Chip8 :=
  .ok (if is_pressed s.keypad (s.v x) then next_program (next_program s) else next_program s)

/-- Embeds `sknp_vx` (ExA1). -/
def sknp_vx (x : Nat) (s : Chip8) : Except Chip8Err Chip8 :=
  .ok (if is_pressed s.keypad (s.v x) then next_program s else next_program (next_program s))

/-- Embeds `ld_vx_dt` (Fx07). -/
def ld_vx_dt (x : Nat) (s : Chip8) : Except Chip8Err Chip8 :=
  .ok (next_program { s with v := Function.update s.v x s.dt })

/-- Embeds `ld_vx_k` (Fx0A): `if let Some(key) = keypad.get_key() { v[x] = key;
next_program(); }` — when no key is held the state is left untouched. -/
def ld_vx_k (x : Nat) (s : Chip8) : Except Chip8Err Chip8 :=
  match s.keypad with
  | some key => .ok (next_program { s with v := Function.update s.v x key })
  | none => .ok s

/-- Embeds `ld_dt_vx` (Fx15). -/
def ld_dt_vx (x : Nat) (s : Chip8) : Except Chip8Err Chip8 :=
  .ok (next_program { s with dt := s.v x })

/-- Embeds `ld_st_vx` (Fx18). -/
def ld_st_vx (x : Nat) (s : Chip8) : Except Chip8Err Chip8 :=
  .ok (next_program { s with st := s.v x })

/-- Embeds `add_i_vx` (Fx1E): `i += v[x] as u16` (u16 wrapping addition). -/
def add_i_vx (x : Nat) (s : Chip8) : Except Chip8Err Chip8 :=
  .ok (next_program { s with i := (s.i + s.v x) % 65536 })

/-- Embeds `ld_f_vx` (Fx29): `i = (v[x] * 5) as u16` — the multiplication is
performed in `u8`, so it wraps modulo 256 before widening. -/
def ld_f_vx (x : Nat) (s : Chip8) : Except Chip8Err Chip8 :=
  .ok (next_program { s with i := s.v x * 5 % 256 })

/-- Embeds `ld_b_vx` (Fx33): BCD store to `memory[i]`, `memory[i+1]`,
`memory[i+2]` (each a panicking index when out of bounds). -/
def ld_b_vx (x : Nat) (s : Chip8) : Except Chip8Err Chip8 :=
  let data := s.v x
  Except.bind (memWrite s s.i (data / 100)) fun s1 =>
  Except.bind (memWrite s1 (s1.i + 1) (data % 100 / 10)) fun s2 =>
  Except.bind (memWrite s2 (s2.i + 2) (data % 10)) fun s3 =>
  Except.ok (next_program s3)

/-- The `for j in 0..=x` loop of `ld_i_vx` (Fx55), iterating `j, j+1, ...` for
`fuel` steps: `memory[i + j] = v[j]`. -/
def storeRegs : Nat → Nat → Chip8 → Except Chip8Err Chip8
  | _, 0, s => .ok s
  | j, fuel + 1, s => Except.bind (memWrite s (s.i + j) (s.v j)) (storeRegs (j + 1) fuel)

/-- Embeds `ld_i_vx` (Fx55). -/
def ld_i_vx (x : Nat) (s : Chip8) : Except Chip8Err Chip8 :=
  (storeRegs 0 (x + 1) s).map next_program

/-- The `for j in 0..=x` loop of `ld_vx_i` (Fx65): `v[j] = memory[i + j]`. -/
def loadRegs : Nat → Nat → Chip8 → Except Chip8Err Chip8
  | _, 0, s => .ok s
  | j, fuel + 1, s =>
    Except.bind (memRead s (s.i + j)) fun d =>
      loadRegs (j + 1) fuel { s with v := Function.update s.v j d }

/-- Embeds `ld_vx_i` (Fx65). -/
def ld_vx_i (x : Nat) (s : Chip8) : Except Chip8Err Chip8 :=
  (loadRegs 0 (x + 1) s).map next_program

/-- Embeds `run_op_code`, the dispatcher: the nibble patterns are matched in
the order of the Rust `match`, and the wildcard arm runs `next_program()`.
The random byte used by Cxkk is passed as the oracle parameter `r`. -/
def run_op_code (r code : Nat) (s : Chip8) : Except Chip8Err Chip8 :=
  let op1 := code / 4096 % 16
  let op2 := code / 256 % 16
  let op3 := code / 16 % 16
  let op4 := code % 16
  let nnn := code % 4096
  let kk := code % 256
  if op1 = 0 ∧ op2 = 0 ∧ op3 = 14 ∧ op4 = 14 then ret s
  else if op1 = 0 ∧ op2 = 0 ∧ op3 = 14 ∧ op4 = 0 then cls s
  else if op1 = 1 then jp_addr nnn s
  else if op1 = 2 then call_addr nnn s
  else if op1 = 3 then se_vx_byte op2 kk s
  else if op1 = 4 then sne_vx_byte op2 kk s
  else if op1 = 5 ∧ op4 = 0 then se_vx_vy op2 op3 s
  else if op1 = 6 then ld_vx_byte op2 kk s
  else if op1 = 7 then add_vx_byte op2 kk s
  else if op1 = 8 ∧ op4 = 0 then ld_vx_vy op2 op3 s
  else if op1 = 8 ∧ op4 = 1 then or_vx_vy op2 op3 s
  else if op1 = 8 ∧ op4 = 2 then and_vx_vy op2 op3 s
  else if op1 = 8 ∧ op4 = 3 then xor_vx_vy op2 op3 s
  else if op1 = 8 ∧ op4 = 4 then add_vx_vy op2 op3 s
  else if op1 = 8 ∧ op4 = 5 then sub_vx_vy op2 op3 s
  else if op1 = 8 ∧ op4 = 6 then shr_vx_vy op2 s
  else if op1 = 8 ∧ op4 = 7 then subn_vx_vy op2 op3 s
  else if op1 = 8 ∧ op4 = 14 then shl_vx_vy op2 s
  else if op1 = 9 ∧ op4 = 0 then sne_vx_vy op2 op3 s
  else if op1 = 10 then ld_i_addr nnn s
  else if op1 = 11 then jp_v0_addr nnn s
  else if op1 = 12 then rnd_vx_byte r op2 kk s
  else if op1 = 13 then drw_vx_vy_nibble op2 op3 op4 s
  else if op1 = 14 ∧ op3 = 9 ∧ op4 = 14 then skp_vx op2 s
  else if op1 = 14 ∧ op3 = 10 ∧ op4 = 1 then sknp_vx op2 s
  else if op1 = 15 ∧ op3 = 0 ∧ op4 = 7 then ld_vx_dt op2 s
  else if op1 = 15 ∧ op3 = 0 ∧ op4 = 10 then ld_vx_k op2 s
  else if op1 = 15 ∧ op3 = 1 ∧ op4 = 5 then ld_dt_vx op2 s
  else if op1 = 15 ∧ op3 = 1 ∧ op4 = 8 then ld_st_vx op2 s
  else if op1 = 15 ∧ op3 = 1 ∧ op4 = 14 then add_i_vx op2 s
  else if op1 = 15 ∧ op3 = 2 ∧ op4 = 9 then ld_f_vx op2 s
  else if op1 = 15 ∧ op3 = 3 ∧ op4 = 3 then ld_b_vx op2 s
  else if op1 = 15 ∧ op3 = 5 ∧ op4 = 5 then ld_i_vx op2 s
  else if op1 = 15 ∧ op3 = 6 ∧ op4 = 5 then ld_vx_i op2 s
  else .ok (next_program s)

/-- The 80-byte `FONT_SET` table. -/
def FONT_SET : List Nat :=
  [0xF0, 0x90, 0x90, 0x90, 0xF0,
   0x20, 0x60, 0x20, 0x20, 0x70,
   0xF0, 0x10, 0xF0, 0x80, 0xF0,
   0xF0, 0x10, 0xF0, 0x10, 0xF0,
   0x90, 0x90, 0xF0, 0x10, 0x10,
   0xF0, 0x80, 0xF0, 0x10, 0xF0,
   0xF0, 0x80, 0xF0, 0x90, 0xF0,
   0xF0, 0x10, 0x20, 0x40, 0x40,
   0xF0, 0x90, 0xF0, 0x90, 0xF0,
   0xF0, 0x90, 0xF0, 0x10, 0xF0,
   0xF0, 0x90, 0xF0, 0x90, 0x90,
   0xE0, 0x90, 0xE0, 0x90, 0xE0,
   0xF0, 0x80, 0x80, 0x80, 0xF0,
   0xE0, 0x90, 0x90, 0x90, 0xE0,
   0xF0, 0x80, 0xF0, 0x80, 0xF0,
   0xF0, 0x80, 0xF0, 0x80, 0x80]

/-- Embeds the pure part of `Chip8::new`: memory holds the font in its first
80 bytes and zero elsewhere, `i = pc = 0x200`, everything else zeroed. -/
def chip8_new : Chip8 :=
  { v := fun _ => 0
    i := 0x200
    stack := fun _ => 0
    sp := 0
    dt := 0
    st := 0
    frame := fun _ _ => 0
    pc := 0x200
    memory := fun a => if a < 80 then FONT_SET.getD a 0 else 0
    keypad := none }

/-- Embeds `load_rom`: each ROM byte `i` is written to `memory[0x200 + i]`
(a panicking index once the address passes 4095). -/
def load_rom (rom : List Nat) (s : Chip8) : Except Chip8Err Chip8 :=
  if 0x200 + rom.length ≤ 4096 then
    .ok { s with memory := fun a =>
      if 0x200 ≤ a ∧ a < 0x200 + rom.length then rom.getD (a - 0x200) 0 else s.memory a }
  else .error .panic

/-- One fetch-execute step of `start_cycle`:
`op_code = (memory[pc] as u16) << 8 | memory[pc + 1] as u16; run_op_code(op_code)`
(both fetches are panicking indexes). -/
def fetch_execute (r : Nat) (s : Chip8) : Except Chip8Err Chip8 :=
  Except.bind (memRead s s.pc) fun hi =>
  Except.bind (memRead s (s.pc + 1)) fun lo =>
  run_op_code r (hi * 256 + lo) s

/-- Whether an Except-valued execution completed without a panic. -/
def execOk (e : Except Chip8Err Chip8) : Bool :=
  match e with
  | .ok _ => true
  | .error _ => false

/-- The instruction word matches one of the 35 recognized opcode patterns of
the dispatcher (listed in the dispatch order). -/
def recognized (code : Nat) : Prop :=
  (code / 4096 % 16 = 0 ∧ code / 256 % 16 = 0 ∧ code / 16 % 16 = 14 ∧ code % 16 = 14) ∨
  (code / 4096 % 16 = 0 ∧ code / 256 % 16 = 0 ∧ code / 16 % 16 = 14 ∧ code % 16 = 0) ∨
  (code / 4096 % 16 = 1) ∨
  (code / 4096 % 16 = 2) ∨
  (code / 4096 % 16 = 3) ∨
  (code / 4096 % 16 = 4) ∨
  (code / 4096 % 16 = 5 ∧ code % 16 = 0) ∨
  (code / 4096 % 16 = 6) ∨
  (code / 4096 % 16 = 7) ∨
  (code / 4096 % 16 = 8 ∧ code % 16 = 0) ∨
  (code / 4096 % 16 = 8 ∧ code % 16 = 1) ∨
  (code / 4096 % 16 = 8 ∧ code % 16 = 2) ∨
  (code / 4096 % 16 = 8 ∧ code % 16 = 3) ∨
  (code / 4096 % 16 = 8 ∧ code % 16 = 4) ∨
  (code / 4096 % 16 = 8 ∧ code % 16 = 5) ∨
  (code / 4096 % 16 = 8 ∧ code % 16 = 6) ∨
  (code / 4096 % 16 = 8 ∧ code % 16 = 7) ∨
  (code / 4096 % 16 = 8 ∧ code % 16 = 14) ∨
  (code / 4096 % 16 = 9 ∧ code % 16 = 0) ∨
  (code / 4096 % 16 = 10) ∨
  (code / 4096 % 16 = 11) ∨
  (code / 4096 % 16 = 12) ∨
  (code / 4096 % 16 = 13) ∨
  (code / 4096 % 16 = 14 ∧ code / 16 % 16 = 9 ∧ code % 16 = 14) ∨
  (code / 4096 % 16 = 14 ∧ code / 16 % 16 = 10 ∧ code % 16 = 1) ∨
  (code / 4096 % 16 = 15 ∧ code / 16 % 16 = 0 ∧ code % 16 = 7) ∨
  (code / 4096 % 16 = 15 ∧ code / 16 % 16 = 0 ∧ code % 16 = 10) ∨
  (code / 4096 % 16 = 15 ∧ code / 16 % 16 = 1 ∧ code % 16 = 5) ∨
  (code / 4096 % 16 = 15 ∧ code / 16 % 16 = 1 ∧ code % 16 = 8) ∨
  (code / 4096 % 16 = 15 ∧ code / 16 % 16 = 1 ∧ code % 16 = 14) ∨
  (code / 4096 % 16 = 15 ∧ code / 16 % 16 = 2 ∧ code % 16 = 9) ∨
  (code / 4096 % 16 = 15 ∧ code / 16 % 16 = 3 ∧ code % 16 = 3) ∨
  (code / 4096 % 16 = 15 ∧ code / 16 % 16 = 5 ∧ code % 16 = 5) ∨
  (code / 4096 % 16 = 15 ∧ code / 16 % 16 = 6 ∧ code % 16 = 5)

/-! ### Dispatch lemmas: `run_op_code` reduces to the matched handler. -/

/-- Dispatch of 00EE. -/
theorem run_op_code_ret (r code : Nat) (s : Chip8)
    (h1 : code / 4096 % 16 = 0) (h2 : code / 256 % 16 = 0)
    (h3 : code / 16 % 16 = 14) (h4 : code % 16 = 14) :
    run_op_code r code s = ret s := by
  simp [run_op_code, h1, h2, h3, h4]

/-- Dispatch of 3xkk. -/
theorem run_op_code_se_vx_byte (r code : Nat) (s : Chip8)
    (h1 : code / 4096 % 16 = 3) :
    run_op_code r code s = se_vx_byte (code / 256 % 16) (code % 256) s := by
  simp [run_op_code, h1]

/-- Dispatch of 4xkk. -/
theorem run_op_code_sne_vx_byte (r code : Nat) (s : Chip8)
    (h1 : code / 4096 % 16 = 4) :
    run_op_code r code s = sne_vx_byte (code / 256 % 16) (code % 256) s := by
  simp [run_op_code, h1]

/-- Dispatch of 5xy0. -/
theorem run_op_code_se_vx_vy (r code : Nat) (s : Chip8)
    (h1 : code / 4096 % 16 = 5) (h4 : code % 16 = 0) :
    run_op_code r code s = se_vx_vy (code / 256 % 16) (code / 16 % 16) s := by
  simp [run_op_code, h1, h4]

/-- Dispatch of 9xy0. -/
theorem run_op_code_sne_vx_vy (r code : Nat) (s : Chip8)
    (h1 : code / 4096 % 16 = 9) (h4 : code % 16 = 0) :
    run_op_code r code s = sne_vx_vy (code / 256 % 16) (code / 16 % 16) s := by
  simp [run_op_code, h1, h4]

/-- Dispatch of 8xy4. -/
theorem run_op_code_add_vx_vy (r code : Nat) (s : Chip8)
    (h1 : code / 4096 % 16 = 8) (h4 : code % 16 = 4) :
    run_op_code r code s = add_vx_vy (code / 256 % 16) (code / 16 % 16) s := by
  simp [run_op_code, h1, h4]

/-- Dispatch of Dxyn. -/
theorem run_op_code_drw (r code : Nat) (s : Chip8)
    (h1 : code / 4096 % 16 = 13) :
    run_op_code r code s = drw_vx_vy_nibble (code / 256 % 16) (code / 16 % 16) (code % 16) s := by
  simp [run_op_code, h1]

/-- Dispatch of Ex9E. -/
theorem run_op_code_skp (r code : Nat) (s : Chip8)
    (h1 : code / 4096 % 16 = 14) (h3 : code / 16 % 16 = 9) (h4 : code % 16 = 14) :
    run_op_code r code s = skp_vx (code / 256 % 16) s := by
  simp [run_op_code, h1, h3, h4]

/-- Dispatch of ExA1. -/
theorem run_op_code_sknp (r code : Nat) (s : Chip8)
    (h1 : code / 4096 % 16 = 14) (h3 : code / 16 % 16 = 10) (h4 : code % 16 = 1) :
    run_op_code r code s = sknp_vx (code / 256 % 16) s := by
  simp [run_op_code, h1, h3, h4]

/-- Dispatch of Fx0A. -/
theorem run_op_code_ld_vx_k (r code : Nat) (s : Chip8)
    (h1 : code / 4096 % 16 = 15) (h3 : code / 16 % 16 = 0) (h4 : code % 16 = 10) :
    run_op_code r code s = ld_vx_k (code / 256 % 16) s := by
  simp [run_op_code, h1, h3, h4]

/-- Dispatch of Fx33. -/
theorem run_op_code_ld_b_vx (r code : Nat) (s : Chip8)
    (h1 : code / 4096 % 16 = 15) (h3 : code / 16 % 16 = 3) (h4 : code % 16 = 3) :
    run_op_code r code s = ld_b_vx (code / 256 % 16) s := by
  simp [run_op_code, h1, h3, h4]

/-- Dispatch of Fx55. -/
theorem run_op_code_ld_i_vx (r code : Nat) (s : Chip8)
    (h1 : code / 4096 % 16 = 15) (h3 : code / 16 % 16 = 5) (h4 : code % 16 = 5) :
    run_op_code r code s = ld_i_vx (code / 256 % 16) s := by
  simp [run_op_code, h1, h3, h4]

/-- Dispatch of Fx65. -/
theorem run_op_code_ld_vx_i (r code : Nat) (s : Chip8)
    (h1 : code / 4096 % 16 = 15) (h3 : code / 16 % 16 = 6) (h4 : code % 16 = 5) :
    run_op_code r code s = ld_vx_i (code / 256 % 16) s := by
  simp [run_op_code, h1, h3, h4]

/-! ### Inversion helpers. -/

/-- Inversion for a successful `Except.bind`. -/
theorem exbind_ok {α β γ : Type} {e : Except γ α} {f : α → Except γ β} {b : β}
    (h : Except.bind e f = .ok b) : ∃ a, e = .ok a ∧ f a = .ok b := by
  cases e with
  | ok a => exact ⟨a, rfl, h⟩
  | error g => simp [Except.bind] at h

/-- A successful memory write implies the address was in bounds. -/
theorem memWrite_ok {s t : Chip8} {a d : Nat} (h : memWrite s a d = .ok t) :
    a < 4096 ∧ t = { s with memory := Function.update s.memory a d } := by
  unfold memWrite at h
  split at h <;> simp_all

/-- A successful memory read implies the address was in bounds. -/
theorem memRead_ok {s : Chip8} {a d : Nat} (h : memRead s a = .ok d) :
    a < 4096 ∧ d = s.memory a := by
  unfold memRead at h
  split at h <;> simp_all

/-! ### Per-handler inversion lemmas (program counter and memory facts). -/

/-- Inversion for `cls`. -/
theorem cls_inv {s t : Chip8} (h : cls s = .ok t) :
    t.pc = nextPC s.pc ∧ t.memory = s.memory := by
  simp [cls] at h; subst h; exact ⟨rfl, rfl⟩

/-- Inversion for `ld_vx_byte`. -/
theorem ld_vx_byte_inv {x kk : Nat} {s t : Chip8} (h : ld_vx_byte x kk s = .ok t) :
    t.pc = nextPC s.pc ∧ t.memory = s.memory := by
  simp [ld_vx_byte] at h; subst h; exact ⟨rfl, rfl⟩

/-- Inversion for `add_vx_byte`. -/
theorem add_vx_byte_inv {x kk : Nat} {s t : Chip8} (h : add_vx_byte x kk s = .ok t) :
    t.pc = nextPC s.pc ∧ t.memory = s.memory := by
  simp [add_vx_byte] at h; subst h; exact ⟨rfl, rfl⟩

/-- Inversion for `ld_vx_vy`. -/
theorem ld_vx_vy_inv {x y : Nat} {s t : Chip8} (h : ld_vx_vy x y s = .ok t) :
    t.pc = nextPC s.pc ∧ t.memory = s.memory := by
  simp [ld_vx_vy] at h; subst h; exact ⟨rfl, rfl⟩

/-- Inversion for `or_vx_vy`. -/
theorem or_vx_vy_inv {x y : Nat} {s t : Chip8} (h : or_vx_vy x y s = .ok t) :
    t.pc = nextPC s.pc ∧ t.memory = s.memory := by
  simp [or_vx_vy] at h; subst h; exact ⟨rfl, rfl⟩

/-- Inversion for `and_vx_vy`. -/
theorem and_vx_vy_inv {x y : Nat} {s t : Chip8} (h : and_vx_vy x y s = .ok t) :
    t.pc = nextPC s.pc ∧ t.memory = s.memory := by
  simp [and_vx_vy] at h; subst h; exact ⟨rfl, rfl⟩

/-- Inversion for `xor_vx_vy`. -/
theorem xor_vx_vy_inv {x y : Nat} {s t : Chip8} (h : xor_vx_vy x y s = .ok t) :
    t.pc = nextPC s.pc ∧ t.memory = s.memory := by
  simp [xor_vx_vy] at h; subst h; exact ⟨rfl, rfl⟩

/-- Inversion for `add_vx_vy`. -/
theorem add_vx_vy_inv {x y : Nat} {s t : Chip8} (h : add_vx_vy x y s = .ok t) :
    t.pc = nextPC s.pc ∧ t.memory = s.memory := by
  simp [add_vx_vy] at h; subst h; exact ⟨rfl, rfl⟩

/-- Inversion for `sub_vx_vy`. -/
theorem sub_vx_vy_inv {x y : Nat} {s t : Chip8} (h : sub_vx_vy x y s = .ok t) :
    t.pc = nextPC s.pc ∧ t.memory = s.memory := by
  simp [sub_vx_vy] at h; subst h; exact ⟨rfl, rfl⟩

/-- Inversion for `shr_vx_vy`. -/
theorem shr_vx_vy_inv {x : Nat} {s t : Chip8} (h : shr_vx_vy x s = .ok t) :
    t.pc = nextPC s.pc ∧ t.memory = s.memory := by
  simp [shr_vx_vy] at h; subst h; exact ⟨rfl, rfl⟩

/-- Inversion for `subn_vx_vy`. -/
theorem subn_vx_vy_inv {x y : Nat} {s t : Chip8} (h : subn_vx_vy x y s = .ok t) :
    t.pc = nextPC s.pc ∧ t.memory = s.memory := by
  simp [subn_vx_vy] at h; subst h; exact ⟨rfl, rfl⟩

/-- Inversion for `shl_vx_vy`. -/
theorem shl_vx_vy_inv {x : Nat} {s t : Chip8} (h : shl_vx_vy x s = .ok t) :
    t.pc = nextPC s.pc ∧ t.memory = s.memory := by
  simp [shl_vx_vy] at h; subst h; exact ⟨rfl, rfl⟩

/-- Inversion for `ld_i_addr`. -/
theorem ld_i_addr_inv {nnn : Nat} {s t : Chip8} (h : ld_i_addr nnn s = .ok t) :
    t.pc = nextPC s.pc ∧ t.memory = s.memory := by
  simp [ld_i_addr] at h; subst h; exact ⟨rfl, rfl⟩

/-- Inversion for `rnd_vx_byte`. -/
theorem rnd_vx_byte_inv {r x kk : Nat} {s t : Chip8} (h : rnd_vx_byte r x kk s = .ok t) :
    t.pc = nextPC s.pc ∧ t.memory = s.memory := by
  simp [rnd_vx_byte] at h; subst h; exact ⟨rfl, rfl⟩

/-- Inversion for `ld_vx_dt`. -/
theorem ld_vx_dt_inv {x : Nat} {s t : Chip8} (h : ld_vx_dt x s = .ok t) :
    t.pc = nextPC s.pc ∧ t.memory = s.memory := by
  simp [ld_vx_dt] at h; subst h; exact ⟨rfl, rfl⟩

/-- Inversion for `ld_dt_vx`. -/
theorem ld_dt_vx_inv {x : Nat} {s t : Chip8} (h : ld_dt_vx x s = .ok t) :
    t.pc = nextPC s.pc ∧ t.memory = s.memory := by
  simp [ld_dt_vx] at h; subst h; exact ⟨rfl, rfl⟩

/-- Inversion for `ld_st_vx`. -/
theorem ld_st_vx_inv {x : Nat} {s t : Chip8} (h : ld_st_vx x s = .ok t) :
    t.pc = nextPC s.pc ∧ t.memory = s.memory := by
  simp [ld_st_vx] at h; subst h; exact ⟨rfl, rfl⟩

/-- Inversion for `add_i_vx`. -/
theorem add_i_vx_inv {x : Nat} {s t : Chip8} (h : add_i_vx x s = .ok t) :
    t.pc = nextPC s.pc ∧ t.memory = s.memory := by
  simp [add_i_vx] at h; subst h; exact ⟨rfl, rfl⟩

/-- Inversion for `ld_f_vx`. -/
theorem ld_f_vx_inv {x : Nat} {s t : Chip8} (h : ld_f_vx x s = .ok t) :
    t.pc = nextPC s.pc ∧ t.memory = s.memory := by
  simp [ld_f_vx] at h; subst h; exact ⟨rfl, rfl⟩

/-- Inversion for `se_vx_byte` (either a single or a double advance). -/
theorem se_vx_byte_inv {x kk : Nat} {s t : Chip8} (h : se_vx_byte x kk s = .ok t) :
    (t.pc = nextPC s.pc ∨ t.pc = nextPC (nextPC s.pc)) ∧ t.memory = s.memory := by
  simp [se_vx_byte] at h
  split at h <;> subst h
  · exact ⟨Or.inr rfl, rfl⟩
  · exact ⟨Or.inl rfl, rfl⟩

/-- Inversion for `sne_vx_byte`. -/
theorem sne_vx_byte_inv {x kk : Nat} {s t : Chip8} (h : sne_vx_byte x kk s = .ok t) :
    (t.pc = nextPC s.pc ∨ t.pc = nextPC (nextPC s.pc)) ∧ t.memory = s.memory := by
  simp [sne_vx_byte] at h
  split at h <;> subst h
  · exact ⟨Or.inl rfl, rfl⟩
  · exact ⟨Or.inr rfl, rfl⟩

/-- Inversion for `se_vx_vy`. -/
theorem se_vx_vy_inv {x y : Nat} {s t : Chip8} (h : se_vx_vy x y s = .ok t) :
    (t.pc = nextPC s.pc ∨ t.pc = nextPC (nextPC s.pc)) ∧ t.memory = s.memory := by
  simp [se_vx_vy] at h
  split at h <;> subst h
  · exact ⟨Or.inr rfl, rfl⟩
  · exact ⟨Or.inl rfl, rfl⟩

/-- Inversion for `sne_vx_vy`. -/
theorem sne_vx_vy_inv {x y : Nat} {s t : Chip8} (h : sne_vx_vy x y s = .ok t) :
    (t.pc = nextPC s.pc ∨ t.pc = nextPC (nextPC s.pc)) ∧ t.memory = s.memory := by
  simp [sne_vx_vy] at h
  split at h <;> subst h
  · exact ⟨Or.inl rfl, rfl⟩
  · exact ⟨Or.inr rfl, rfl⟩

/-- Inversion for `skp_vx`. -/
theorem skp_vx_inv {x : Nat} {s t : Chip8} (h : skp_vx x s = .ok t) :
    (t.pc = nextPC s.pc ∨ t.pc = nextPC (nextPC s.pc)) ∧ t.memory = s.memory := by
  simp [skp_vx] at h
  split at h <;> subst h
  · exact ⟨Or.inr rfl, rfl⟩
  · exact ⟨Or.inl rfl, rfl⟩

/-- Inversion for `sknp_vx`. -/
theorem sknp_vx_inv {x : Nat} {s t : Chip8} (h : sknp_vx x s = .ok t) :
    (t.pc = nextPC s.pc ∨ t.pc = nextPC (nextPC s.pc)) ∧ t.memory = s.memory := by
  simp [sknp_vx] at h
  split at h <;> subst h
  · exact ⟨Or.inl rfl, rfl⟩
  · exact ⟨Or.inr rfl, rfl⟩

/-- Inversion for `ret`. -/
theorem ret_inv {s t : Chip8} (h : ret s = .ok t) :
    t.pc = nextPC (s.stack (s.sp - 1)) ∧ t.memory = s.memory := by
  unfold ret at h
  split at h <;> simp_all
  subst h; exact ⟨rfl, rfl⟩

/-- Inversion for `jp_addr`. -/
theorem jp_addr_inv {nnn : Nat} {s t : Chip8} (h : jp_addr nnn s = .ok t) :
    t.pc = nnn ∧ t.memory = s.memory := by
  simp [jp_addr] at h; subst h; exact ⟨rfl, rfl⟩

/-- Inversion for `call_addr`. -/
theorem call_addr_inv {nnn : Nat} {s t : Chip8} (h : call_addr nnn s = .ok t) :
    t.pc = nnn ∧ t.memory = s.memory := by
  unfold call_addr at h
  split at h <;> simp_all
  subst h; exact ⟨rfl, rfl⟩

/-- Inversion for `jp_v0_addr`. -/
theorem jp_v0_addr_inv {nnn : Nat} {s t : Chip8} (h : jp_v0_addr nnn s = .ok t) :
    t.pc = min (s.v 0 + nnn) 0xFFF ∧ t.memory = s.memory := by
  simp [jp_v0_addr] at h; subst h; exact ⟨rfl, rfl⟩

/-- Inversion for `ld_vx_k`. -/
theorem ld_vx_k_inv {x : Nat} {s t : Chip8} (h : ld_vx_k x s = .ok t) :
    (t.pc = nextPC s.pc ∨ t.pc = s.pc) ∧ t.memory = s.memory := by
  unfold ld_vx_k at h
  cases hk : s.keypad with
  | some key => rw [hk] at h; simp at h; subst h; exact ⟨Or.inl rfl, rfl⟩
  | none => rw [hk] at h; simp at h; subst h; exact ⟨Or.inr rfl, rfl⟩

/-! ### Loop lemmas for the Fx33/Fx55/Fx65 memory transfers. -/

/-- A successful register store preserves pc, `i`, and all memory below `i`. -/
theorem storeRegs_inv : ∀ {fuel j : Nat} {s t : Chip8}, storeRegs j fuel s = .ok t →
    t.pc = s.pc ∧ t.i = s.i ∧ ∀ a, a < s.i → t.memory a = s.memory a := by
  intro fuel
  induction fuel with
  | zero =>
    intro j s t h
    simp [storeRegs] at h
    subst h; exact ⟨rfl, rfl, fun a _ => rfl⟩
  | succ fuel ih =>
    intro j s t h
    simp only [storeRegs] at h
    obtain ⟨u, hw, hrec⟩ := exbind_ok h
    obtain ⟨hlt, hu⟩ := memWrite_ok hw
    subst hu
    obtain ⟨hpc, hi, hmem⟩ := ih hrec
    refine ⟨hpc, hi, fun a ha => ?_⟩
    rw [hmem a ha]
    have hne : a ≠ s.i + j := by omega
    simp [Function.update, hne]

/-- Full characterization of a register store that stays in bounds. -/
theorem storeRegs_spec : ∀ (fuel j : Nat) (s : Chip8), s.i + j + fuel ≤ 4096 →
    ∃ t, storeRegs j fuel s = .ok t ∧ t.pc = s.pc ∧ t.i = s.i ∧ t.v = s.v ∧
      t.sp = s.sp ∧ t.stack = s.stack ∧ t.dt = s.dt ∧ t.st = s.st ∧
      t.frame = s.frame ∧ t.keypad = s.keypad ∧
      (∀ a, (a < s.i + j ∨ s.i + j + fuel ≤ a) → t.memory a = s.memory a) ∧
      (∀ k, k < fuel → t.memory (s.i + j + k) = s.v (j + k)) := by
  intro fuel
  induction fuel with
  | zero =>
    intro j s _
    exact ⟨s, rfl, rfl, rfl, rfl, rfl, rfl, rfl, rfl, rfl, rfl,
      fun a _ => rfl, fun k hk => absurd hk (by omega)⟩
  | succ fuel ih =>
    intro j s hb
    have hlt : s.i + j < 4096 := by omega
    have hw : memWrite s (s.i + j) (s.v j) =
        .ok { s with memory := Function.update s.memory (s.i + j) (s.v j) } := by
      simp [memWrite, hlt]
    obtain ⟨t, hrun, hpc, hi, hv, hsp, hstack, hdt, hst, hframe, hkey, hout, hin⟩ :=
      ih (j + 1) { s with memory := Function.update s.memory (s.i + j) (s.v j) } (by simp; try omega)
    refine ⟨t, ?_, hpc, hi, hv, hsp, hstack, hdt, hst, hframe, hkey, ?_, ?_⟩
    · simp only [storeRegs, hw, Except.bind]
      exact hrun
    · intro a ha
      have ha2 : a < s.i + (j + 1) ∨ s.i + (j + 1) + fuel ≤ a ∨ a = s.i + j := by omega
      rcases ha2 with ha2 | ha2 | ha2
      · rw [hout a (by simp; try omega)]
        have hne : a ≠ s.i + j := by omega
        simp [Function.update, hne]
      · rw [hout a (by simp; try omega)]
        have hne : a ≠ s.i + j := by omega
        simp [Function.update, hne]
      · omega
    · intro k hk
      cases k with
      | zero =>
        rw [show s.i + j + 0 = s.i + j by ring, hout (s.i + j) (by simp; try omega)]
        simp [Function.update]
      | succ k =>
        have := hin k (by omega)
        simp only [Chip8.i] at this
        rw [show s.i + j + (k + 1) = s.i + (j + 1) + k by ring]
        rw [this]
        congr 1
        omega

/-- A register store that would run past memory panics. -/
theorem storeRegs_err : ∀ (fuel j : Nat) (s : Chip8), 0 < fuel → 4096 < s.i + j + fuel →
    storeRegs j fuel s = .error .panic := by
  intro fuel
  induction fuel with
  | zero => intro j s h; omega
  | succ fuel ih =>
    intro j s _ hb
    by_cases hlt : s.i + j < 4096
    · have hw : memWrite s (s.i + j) (s.v j) =
          .ok { s with memory := Function.update s.memory (s.i + j) (s.v j) } := by
        simp [memWrite, hlt]
      simp only [storeRegs, hw, Except.bind]
      exact ih (j + 1) _ (by omega) (by simp; try omega)
    · have hw : memWrite s (s.i + j) (s.v j) = .error .panic := by
        simp [memWrite, hlt]
      simp only [storeRegs, hw, Except.bind]

/-- A successful register load leaves pc, `i` and the whole memory unchanged. -/
theorem loadRegs_inv : ∀ {fuel j : Nat} {s t : Chip8}, loadRegs j fuel s = .ok t →
    t.pc = s.pc ∧ t.i = s.i ∧ t.memory = s.memory := by
  intro fuel
  induction fuel with
  | zero =>
    intro j s t h
    simp [loadRegs] at h
    subst h; exact ⟨rfl, rfl, rfl⟩
  | succ fuel ih =>
    intro j s t h
    simp only [loadRegs] at h
    obtain ⟨d, hr, hrec⟩ := exbind_ok h
    obtain ⟨hlt, hd⟩ := memRead_ok hr
    obtain ⟨hpc, hi, hmem⟩ := ih hrec
    exact ⟨hpc, hi, hmem⟩

/-- Full characterization of a register load that stays in bounds. -/
theorem loadRegs_spec : ∀ (fuel j : Nat) (s : Chip8), s.i + j + fuel ≤ 4096 →
    ∃ t, loadRegs j fuel s = .ok t ∧ t.pc = s.pc ∧ t.i = s.i ∧ t.memory = s.memory ∧
      t.sp = s.sp ∧ t.stack = s.stack ∧ t.dt = s.dt ∧ t.st = s.st ∧
      t.frame = s.frame ∧ t.keypad = s.keypad ∧
      (∀ a, (a < j ∨ j + fuel ≤ a) → t.v a = s.v a) ∧
      (∀ k, k < fuel → t.v (j + k) = s.memory (s.i + j + k)) := by
  intro fuel
  induction fuel with
  | zero =>
    intro j s _
    exact ⟨s, rfl, rfl, rfl, rfl, rfl, rfl, rfl, rfl, rfl, rfl,
      fun a _ => rfl, fun k hk => absurd hk (by omega)⟩
  | succ fuel ih =>
    intro j s hb
    have hlt : s.i + j < 4096 := by omega
    have hr : memRead s (s.i + j) = .ok (s.memory (s.i + j)) := by
      simp [memRead, hlt]
    obtain ⟨t, hrun, hpc, hi, hmem, hsp, hstack, hdt, hst, hframe, hkey, hout, hin⟩ :=
      ih (j + 1) { s with v := Function.update s.v j (s.memory (s.i + j)) } (by simp; try omega)
    refine ⟨t, ?_, hpc, hi, hmem, hsp, hstack, hdt, hst, hframe, hkey, ?_, ?_⟩
    · simp only [loadRegs, hr, Except.bind]
      exact hrun
    · intro a ha
      rw [hout a (by omega)]
      have hne : a ≠ j := by omega
      simp [Function.update, hne]
    · intro k hk
      cases k with
      | zero =>
        rw [show j + 0 = j by ring, hout j (by omega)]
        simp [Function.update]
      | succ k =>
        have := hin k (by omega)
        simp only [Chip8.i, Chip8.memory] at this
        rw [show j + (k + 1) = j + 1 + k by ring, this]
        congr 1
        omega

/-- A register load that would run past memory panics. -/
theorem loadRegs_err : ∀ (fuel j : Nat) (s : Chip8), 0 < fuel → 4096 < s.i + j + fuel →
    loadRegs j fuel s = .error .panic := by
  intro fuel
  induction fuel with
  | zero => intro j s h; omega
  | succ fuel ih =>
    intro j s _ hb
    by_cases hlt : s.i + j < 4096
    · have hr : memRead s (s.i + j) = .ok (s.memory (s.i + j)) := by
        simp [memRead, hlt]
      simp only [loadRegs, hr, Except.bind]
      exact ih (j + 1) _ (by omega) (by simp; try omega)
    · have hr : memRead s (s.i + j) = .error .panic := by
        simp [memRead, hlt]
      simp only [loadRegs, hr, Except.bind]

/-! ### Draw loop lemmas. -/

/-- One bit of a sprite row never touches registers other than VF. -/
theorem drawBitStep_v {x rowY sprite bit : Nat} {s : Chip8} {j : Nat} (hj : j ≠ 15) :
    (drawBitStep x rowY sprite bit s).v j = s.v j := by
  simp [drawBitStep, Function.update, hj]

/-- The inner bit loop only mutates the framebuffer and VF. -/
theorem drawBitsFrom_pres (x rowY sprite : Nat) : ∀ (fuel c : Nat) (s : Chip8),
    (drawBitsFrom x rowY sprite c fuel s).pc = s.pc ∧
    (drawBitsFrom x rowY sprite c fuel s).i = s.i ∧
    (drawBitsFrom x rowY sprite c fuel s).memory = s.memory ∧
    (drawBitsFrom x rowY sprite c fuel s).sp = s.sp ∧
    (drawBitsFrom x rowY sprite c fuel s).stack = s.stack ∧
    (drawBitsFrom x rowY sprite c fuel s).dt = s.dt ∧
    (drawBitsFrom x rowY sprite c fuel s).st = s.st ∧
    (drawBitsFrom x rowY sprite c fuel s).keypad = s.keypad ∧
    ∀ j, j ≠ 15 → (drawBitsFrom x rowY sprite c fuel s).v j = s.v j := by
  intro fuel
  induction fuel with
  | zero =>
    intro c s
    exact ⟨rfl, rfl, rfl, rfl, rfl, rfl, rfl, rfl, fun _ _ => rfl⟩
  | succ fuel ih =>
    intro c s
    simp only [drawBitsFrom]
    obtain ⟨h1, h2, h3, h4, h5, h6, h7, h8, h9⟩ := ih (c + 1) (drawBitStep x rowY sprite c s)
    refine ⟨by rw [h1]; rfl, by rw [h2]; rfl, by rw [h3]; rfl, by rw [h4]; rfl,
      by rw [h5]; rfl, by rw [h6]; rfl, by rw [h7]; rfl, by rw [h8]; rfl, fun j hj => ?_⟩
    rw [h9 j hj, drawBitStep_v hj]

/-- The row loop only mutates the framebuffer and VF. -/
theorem drawRowsFrom_inv (x y : Nat) : ∀ {fuel row : Nat} {s t : Chip8},
    drawRowsFrom x y row fuel s = .ok t →
    t.pc = s.pc ∧ t.i = s.i ∧ t.memory = s.memory ∧ t.sp = s.sp ∧ t.stack = s.stack ∧
    t.dt = s.dt ∧ t.st = s.st ∧ t.keypad = s.keypad := by
  intro fuel
  induction fuel with
  | zero =>
    intro row s t h
    simp [drawRowsFrom] at h
    subst h
    exact ⟨rfl, rfl, rfl, rfl, rfl, rfl, rfl, rfl⟩
  | succ fuel ih =>
    intro row s t h
    simp only [drawRowsFrom] at h
    split at h
    · obtain ⟨g1, g2, g3, g4, g5, g6, g7, g8⟩ := ih h
      obtain ⟨h1, h2, h3, h4, h5, h6, h7, h8, _⟩ :=
        drawBitsFrom_pres x ((s.v y + row) % 256 % 32) (s.memory (s.i + row)) 8 0 s
      exact ⟨by rw [g1, h1], by rw [g2, h2], by rw [g3, h3], by rw [g4, h4],
        by rw [g5, h5], by rw [g6, h6], by rw [g7, h7], by rw [g8, h8]⟩
    · exact absurd h (by simp)

/-- Inversion for `drw_vx_vy_nibble`. -/
theorem drw_inv {x y n : Nat} {s t : Chip8} (h : drw_vx_vy_nibble x y n s = .ok t) :
    t.pc = nextPC s.pc ∧ t.memory = s.memory := by
  unfold drw_vx_vy_nibble at h
  cases hres : drawRowsFrom x y 0 n { s with v := Function.update s.v 15 0 } with
  | ok u =>
    rw [hres] at h
    simp [Except.map] at h
    subst h
    obtain ⟨g1, _, g3, _⟩ := drawRowsFrom_inv x y hres
    constructor
    · show nextPC u.pc = nextPC s.pc
      rw [g1]
    · exact g3
  | error e =>
    rw [hres] at h
    simp [Except.map] at h

/-- Inversion for `ld_b_vx`. -/
theorem ld_b_vx_inv {x : Nat} {s t : Chip8} (h : ld_b_vx x s = .ok t) :
    t.pc = nextPC s.pc ∧ ∀ a, a < s.i → t.memory a = s.memory a := by
  simp only [ld_b_vx] at h
  obtain ⟨s1, hw1, h⟩ := exbind_ok h
  obtain ⟨hb1, hs1⟩ := memWrite_ok hw1
  subst hs1
  obtain ⟨s2, hw2, h⟩ := exbind_ok h
  obtain ⟨hb2, hs2⟩ := memWrite_ok hw2
  subst hs2
  obtain ⟨s3, hw3, h⟩ := exbind_ok h
  obtain ⟨hb3, hs3⟩ := memWrite_ok hw3
  subst hs3
  simp at h
  subst h
  refine ⟨rfl, fun a ha => ?_⟩
  have e1 : a ≠ s.i := by omega
  have e2 : a ≠ s.i + 1 := by omega
  have e3 : a ≠ s.i + 1 + 1 := by omega
  simp [next_program, Function.update, e1, e2, e3]

/-- Inversion for `ld_i_vx`. -/
theorem ld_i_vx_inv {x : Nat} {s t : Chip8} (h : ld_i_vx x s = .ok t) :
    t.pc = nextPC s.pc ∧ ∀ a, a < s.i → t.memory a = s.memory a := by
  unfold ld_i_vx at h
  cases hres : storeRegs 0 (x + 1) s with
  | ok u =>
    rw [hres] at h
    simp [Except.map] at h
    subst h
    obtain ⟨g1, _, g3⟩ := storeRegs_inv hres
    exact ⟨by show nextPC u.pc = nextPC s.pc; rw [g1], g3⟩
  | error e =>
    rw [hres] at h
    simp [Except.map] at h

/-- Inversion for `ld_vx_i`. -/
theorem ld_vx_i_inv {x : Nat} {s t : Chip8} (h : ld_vx_i x s = .ok t) :
    t.pc = nextPC s.pc ∧ t.memory = s.memory := by
  unfold ld_vx_i at h
  cases hres : loadRegs 0 (x + 1) s with
  | ok u =>
    rw [hres] at h
    simp [Except.map] at h
    subst h
    obtain ⟨g1, _, g3⟩ := loadRegs_inv hres
    exact ⟨by show nextPC u.pc = nextPC s.pc; rw [g1], g3⟩
  | error e =>
    rw [hres] at h
    simp [Except.map] at h


/-! ### Dispatch lemmas for the remaining arms. -/

/-- Dispatch of 00E0. -/
theorem run_op_code_cls (r code : Nat) (s : Chip8)
    (h1 : code / 4096 % 16 = 0) (h2 : code / 256 % 16 = 0)
    (h3 : code / 16 % 16 = 14) (h4 : code % 16 = 0) :
    run_op_code r code s = cls s := by
  simp [run_op_code, h1, h2, h3, h4]

/-- Dispatch of 1nnn. -/
theorem run_op_code_jp (r code : Nat) (s : Chip8) (h1 : code / 4096 % 16 = 1) :
    run_op_code r code s = jp_addr (code % 4096) s := by
  simp [run_op_code, h1]

/-- Dispatch of 2nnn. -/
theorem run_op_code_call (r code : Nat) (s : Chip8) (h1 : code / 4096 % 16 = 2) :
    run_op_code r code s = call_addr (code % 4096) s := by
  simp [run_op_code, h1]

/-- Dispatch of 6xkk. -/
theorem run_op_code_ld_vx_byte (r code : Nat) (s : Chip8) (h1 : code / 4096 % 16 = 6) :
    run_op_code r code s = ld_vx_byte (code / 256 % 16) (code % 256) s := by
  simp [run_op_code, h1]

/-- Dispatch of 7xkk. -/
theorem run_op_code_add_vx_byte (r code : Nat) (s : Chip8) (h1 : code / 4096 % 16 = 7) :
    run_op_code r code s = add_vx_byte (code / 256 % 16) (code % 256) s := by
  simp [run_op_code, h1]

/-- Dispatch of 8xy0. -/
theorem run_op_code_ld_vx_vy (r code : Nat) (s : Chip8)
    (h1 : code / 4096 % 16 = 8) (h4 : code % 16 = 0) :
    run_op_code r code s = ld_vx_vy (code / 256 % 16) (code / 16 % 16) s := by
  simp [run_op_code, h1, h4]

/-- Dispatch of 8xy1. -/
theorem run_op_code_or_vx_vy (r code : Nat) (s : Chip8)
    (h1 : code / 4096 % 16 = 8) (h4 : code % 16 = 1) :
    run_op_code r code s = or_vx_vy (code / 256 % 16) (code / 16 % 16) s := by
  simp [run_op_code, h1, h4]

/-- Dispatch of 8xy2. -/
theorem run_op_code_and_vx_vy (r code : Nat) (s : Chip8)
    (h1 : code / 4096 % 16 = 8) (h4 : code % 16 = 2) :
    run_op_code r code s = and_vx_vy (code / 256 % 16) (code / 16 % 16) s := by
  simp [run_op_code, h1, h4]

/-- Dispatch of 8xy3. -/
theorem run_op_code_xor_vx_vy (r code : Nat) (s : Chip8)
    (h1 : code / 4096 % 16 = 8) (h4 : code % 16 = 3) :
    run_op_code r code s = xor_vx_vy (code / 256 % 16) (code / 16 % 16) s := by
  simp [run_op_code, h1, h4]

/-- Dispatch of 8xy5. -/
theorem run_op_code_sub_vx_vy (r code : Nat) (s : Chip8)
    (h1 : code / 4096 % 16 = 8) (h4 : code % 16 = 5) :
    run_op_code r code s = sub_vx_vy (code / 256 % 16) (code / 16 % 16) s := by
  simp [run_op_code, h1, h4]

/-- Dispatch of 8xy6. -/
theorem run_op_code_shr_vx_vy (r code : Nat) (s : Chip8)
    (h1 : code / 4096 % 16 = 8) (h4 : code % 16 = 6) :
    run_op_code r code s = shr_vx_vy (code / 256 % 16) s := by
  simp [run_op_code, h1, h4]

/-- Dispatch of 8xy7. -/
theorem run_op_code_subn_vx_vy (r code : Nat) (s : Chip8)
    (h1 : code / 4096 % 16 = 8) (h4 : code % 16 = 7) :
    run_op_code r code s = subn_vx_vy (code / 256 % 16) (code / 16 % 16) s := by
  simp [run_op_code, h1, h4]

/-- Dispatch of 8xyE. -/
theorem run_op_code_shl_vx_vy (r code : Nat) (s : Chip8)
    (h1 : code / 4096 % 16 = 8) (h4 : code % 16 = 14) :
    run_op_code r code s = shl_vx_vy (code / 256 % 16) s := by
  simp [run_op_code, h1, h4]

/-- Dispatch of Annn. -/
theorem run_op_code_ld_i_addr (r code : Nat) (s : Chip8) (h1 : code / 4096 % 16 = 10) :
    run_op_code r code s = ld_i_addr (code % 4096) s := by
  simp [run_op_code, h1]

/-- Dispatch of Bnnn. -/
theorem run_op_code_jp_v0 (r code : Nat) (s : Chip8) (h1 : code / 4096 % 16 = 11) :
    run_op_code r code s = jp_v0_addr (code % 4096) s := by
  simp [run_op_code, h1]

/-- Dispatch of Cxkk. -/
theorem run_op_code_rnd (r code : Nat) (s : Chip8) (h1 : code / 4096 % 16 = 12) :
    run_op_code r code s = rnd_vx_byte r (code / 256 % 16) (code % 256) s := by
  simp [run_op_code, h1]

/-- Dispatch of Fx07. -/
theorem run_op_code_ld_vx_dt (r code : Nat) (s : Chip8)
    (h1 : code / 4096 % 16 = 15) (h3 : code / 16 % 16 = 0) (h4 : code % 16 = 7) :
    run_op_code r code s = ld_vx_dt (code / 256 % 16) s := by
  simp [run_op_code, h1, h3, h4]

/-- Dispatch of Fx15. -/
theorem run_op_code_ld_dt_vx (r code : Nat) (s : Chip8)
    (h1 : code / 4096 % 16 = 15) (h3 : code / 16 % 16 = 1) (h4 : code % 16 = 5) :
    run_op_code r code s = ld_dt_vx (code / 256 % 16) s := by
  simp [run_op_code, h1, h3, h4]

/-- Dispatch of Fx18. -/
theorem run_op_code_ld_st_vx (r code : Nat) (s : Chip8)
    (h1 : code / 4096 % 16 = 15) (h3 : code / 16 % 16 = 1) (h4 : code % 16 = 8) :
    run_op_code r code s = ld_st_vx (code / 256 % 16) s := by
  simp [run_op_code, h1, h3, h4]

/-- Dispatch of Fx1E. -/
theorem run_op_code_add_i_vx (r code : Nat) (s : Chip8)
    (h1 : code / 4096 % 16 = 15) (h3 : code / 16 % 16 = 1) (h4 : code % 16 = 14) :
    run_op_code r code s = add_i_vx (code / 256 % 16) s := by
  simp [run_op_code, h1, h3, h4]

/-- Dispatch of Fx29. -/
theorem run_op_code_ld_f_vx (r code : Nat) (s : Chip8)
    (h1 : code / 4096 % 16 = 15) (h3 : code / 16 % 16 = 2) (h4 : code % 16 = 9) :
    run_op_code r code s = ld_f_vx (code / 256 % 16) s := by
  simp [run_op_code, h1, h3, h4]

/-- Dispatch of an unrecognized instruction word: the wildcard arm runs
`next_program()` only. -/
theorem run_op_code_unknown (r code : Nat) (s : Chip8) (h : ¬ recognized code) :
    run_op_code r code s = .ok (next_program s) := by
  unfold recognized at h
  simp only [not_or] at h
  obtain ⟨n01, n02, n03, n04, n05, n06, n07, n08, n09, n10, n11, n12, n13, n14, n15, n16, n17,
    n18, n19, n20, n21, n22, n23, n24, n25, n26, n27, n28, n29, n30, n31, n32, n33, n34⟩ := h
  simp [run_op_code, n01, n02, n03, n04, n05, n06, n07, n08, n09, n10, n11, n12, n13, n14, n15,
    n16, n17, n18, n19, n20, n21, n22, n23, n24, n25, n26, n27, n28, n29, n30, n31, n32, n33,
    n34]

/-! ### Master inversion: facts holding after any successfully executed opcode. -/

/-- The clamped program counter advance never leaves memory. -/
theorem nextPC_le (p : Nat) : nextPC p ≤ 4095 := Nat.min_le_right _ _

/-- Common conclusion shape for opcodes that leave memory untouched. -/
theorem master_shape {P Q : Prop} {s t : Chip8}
    (hp : t.pc ≤ 4095 ∨ t.pc = s.pc) (hm : t.memory = s.memory) :
    (t.pc ≤ 4095 ∨ t.pc = s.pc) ∧ (∀ a, a < s.i → t.memory a = s.memory a) ∧
    (P → Q → t.memory = s.memory) :=
  ⟨hp, fun a _ => by rw [hm], fun _ _ => hm⟩

/-- After any successfully dispatched instruction: the new pc is at most 4095
(or the instruction left pc untouched, which only Fx0A without a key does);
memory below the index register is untouched; and unless the instruction was
Fx33 or Fx55 the memory is untouched entirely. -/
theorem run_op_code_inv {r code : Nat} {s t : Chip8} (h : run_op_code r code s = .ok t) :
    (t.pc ≤ 4095 ∨ t.pc = s.pc) ∧
    (∀ a, a < s.i → t.memory a = s.memory a) ∧
    (¬ (code / 4096 % 16 = 15 ∧ code / 16 % 16 = 3 ∧ code % 16 = 3) →
     ¬ (code / 4096 % 16 = 15 ∧ code / 16 % 16 = 5 ∧ code % 16 = 5) →
     t.memory = s.memory) := by
  have hb : code / 4096 % 16 < 16 := Nat.mod_lt _ (by norm_num)
  rcases (by omega : code / 4096 % 16 = 0 ∨ code / 4096 % 16 = 1 ∨ code / 4096 % 16 = 2 ∨
      code / 4096 % 16 = 3 ∨ code / 4096 % 16 = 4 ∨ code / 4096 % 16 = 5 ∨
      code / 4096 % 16 = 6 ∨ code / 4096 % 16 = 7 ∨ code / 4096 % 16 = 8 ∨
      code / 4096 % 16 = 9 ∨ code / 4096 % 16 = 10 ∨ code / 4096 % 16 = 11 ∨
      code / 4096 % 16 = 12 ∨ code / 4096 % 16 = 13 ∨ code / 4096 % 16 = 14 ∨
      code / 4096 % 16 = 15) with
    h1 | h1 | h1 | h1 | h1 | h1 | h1 | h1 | h1 | h1 | h1 | h1 | h1 | h1 | h1 | h1
  · by_cases hA : code / 256 % 16 = 0 ∧ code / 16 % 16 = 14 ∧ code % 16 = 14
    · rw [run_op_code_ret r code s h1 hA.1 hA.2.1 hA.2.2] at h
      obtain ⟨hp, hm⟩ := ret_inv h
      exact master_shape (Or.inl (by rw [hp]; exact nextPC_le _)) hm
    · by_cases hB : code / 256 % 16 = 0 ∧ code / 16 % 16 = 14 ∧ code % 16 = 0
      · rw [run_op_code_cls r code s h1 hB.1 hB.2.1 hB.2.2] at h
        obtain ⟨hp, hm⟩ := cls_inv h
        exact master_shape (Or.inl (by rw [hp]; exact nextPC_le _)) hm
      · rw [run_op_code_unknown r code s (by unfold recognized; omega)] at h
        simp at h
        subst h
        exact master_shape (Or.inl (nextPC_le _)) rfl
  · rw [run_op_code_jp r code s h1] at h
    obtain ⟨hp, hm⟩ := jp_addr_inv h
    exact master_shape (Or.inl (by rw [hp]; omega)) hm
  · rw [run_op_code_call r code s h1] at h
    obtain ⟨hp, hm⟩ := call_addr_inv h
    exact master_shape (Or.inl (by rw [hp]; omega)) hm
  · rw [run_op_code_se_vx_byte r code s h1] at h
    obtain ⟨hp | hp, hm⟩ := se_vx_byte_inv h <;>
      exact master_shape (Or.inl (by rw [hp]; exact nextPC_le _)) hm
  · rw [run_op_code_sne_vx_byte r code s h1] at h
    obtain ⟨hp | hp, hm⟩ := sne_vx_byte_inv h <;>
      exact master_shape (Or.inl (by rw [hp]; exact nextPC_le _)) hm
  · by_cases h4 : code % 16 = 0
    · rw [run_op_code_se_vx_vy r code s h1 h4] at h
      obtain ⟨hp | hp, hm⟩ := se_vx_vy_inv h <;>
        exact master_shape (Or.inl (by rw [hp]; exact nextPC_le _)) hm
    · rw [run_op_code_unknown r code s (by unfold recognized; omega)] at h
      simp at h
      subst h
      exact master_shape (Or.inl (nextPC_le _)) rfl
  · rw [run_op_code_ld_vx_byte r code s h1] at h
    obtain ⟨hp, hm⟩ := ld_vx_byte_inv h
    exact master_shape (Or.inl (by rw [hp]; exact nextPC_le _)) hm
  · rw [run_op_code_add_vx_byte r code s h1] at h
    obtain ⟨hp, hm⟩ := add_vx_byte_inv h
    exact master_shape (Or.inl (by rw [hp]; exact nextPC_le _)) hm
  · rcases (by omega : code % 16 = 0 ∨ code % 16 = 1 ∨ code % 16 = 2 ∨ code % 16 = 3 ∨
        code % 16 = 4 ∨ code % 16 = 5 ∨ code % 16 = 6 ∨ code % 16 = 7 ∨ code % 16 = 14 ∨
        (code % 16 = 8 ∨ code % 16 = 9 ∨ code % 16 = 10 ∨ code % 16 = 11 ∨
         code % 16 = 12 ∨ code % 16 = 13 ∨ code % 16 = 15)) with
      h4 | h4 | h4 | h4 | h4 | h4 | h4 | h4 | h4 | h4
    · rw [run_op_code_ld_vx_vy r code s h1 h4] at h
      obtain ⟨hp, hm⟩ := ld_vx_vy_inv h
      exact master_shape (Or.inl (by rw [hp]; exact nextPC_le _)) hm
    · rw [run_op_code_or_vx_vy r code s h1 h4] at h
      obtain ⟨hp, hm⟩ := or_vx_vy_inv h
      exact master_shape (Or.inl (by rw [hp]; exact nextPC_le _)) hm
    · rw [run_op_code_and_vx_vy r code s h1 h4] at h
      obtain ⟨hp, hm⟩ := and_vx_vy_inv h
      exact master_shape (Or.inl (by rw [hp]; exact nextPC_le _)) hm
    · rw [run_op_code_xor_vx_vy r code s h1 h4] at h
      obtain ⟨hp, hm⟩ := xor_vx_vy_inv h
      exact master_shape (Or.inl (by rw [hp]; exact nextPC_le _)) hm
    · rw [run_op_code_add_vx_vy r code s h1 h4] at h
      obtain ⟨hp, hm⟩ := add_vx_vy_inv h
      exact master_shape (Or.inl (by rw [hp]; exact nextPC_le _)) hm
    · rw [run_op_code_sub_vx_vy r code s h1 h4] at h
      obtain ⟨hp, hm⟩ := sub_vx_vy_inv h
      exact master_shape (Or.inl (by rw [hp]; exact nextPC_le _)) hm
    · rw [run_op_code_shr_vx_vy r code s h1 h4] at h
      obtain ⟨hp, hm⟩ := shr_vx_vy_inv h
      exact master_shape (Or.inl (by rw [hp]; exact nextPC_le _)) hm
    · rw [run_op_code_subn_vx_vy r code s h1 h4] at h
      obtain ⟨hp, hm⟩ := subn_vx_vy_inv h
      exact master_shape (Or.inl (by rw [hp]; exact nextPC_le _)) hm
    · rw [run_op_code_shl_vx_vy r code s h1 h4] at h
      obtain ⟨hp, hm⟩ := shl_vx_vy_inv h
      exact master_shape (Or.inl (by rw [hp]; exact nextPC_le _)) hm
    · rw [run_op_code_unknown r code s (by unfold recognized; omega)] at h
      simp at h
      subst h
      exact master_shape (Or.inl (nextPC_le _)) rfl
  · by_cases h4 : code % 16 = 0
    · rw [run_op_code_sne_vx_vy r code s h1 h4] at h
      obtain ⟨hp | hp, hm⟩ := sne_vx_vy_inv h <;>
        exact master_shape (Or.inl (by rw [hp]; exact nextPC_le _)) hm
    · rw [run_op_code_unknown r code s (by unfold recognized; omega)] at h
      simp at h
      subst h
      exact master_shape (Or.inl (nextPC_le _)) rfl
  · rw [run_op_code_ld_i_addr r code s h1] at h
    obtain ⟨hp, hm⟩ := ld_i_addr_inv h
    exact master_shape (Or.inl (by rw [hp]; exact nextPC_le _)) hm
  · rw [run_op_code_jp_v0 r code s h1] at h
    obtain ⟨hp, hm⟩ := jp_v0_addr_inv h
    exact master_shape (Or.inl (by rw [hp]; exact Nat.min_le_right _ _)) hm
  · rw [run_op_code_rnd r code s h1] at h
    obtain ⟨hp, hm⟩ := rnd_vx_byte_inv h
    exact master_shape (Or.inl (by rw [hp]; exact nextPC_le _)) hm
  · rw [run_op_code_drw r code s h1] at h
    obtain ⟨hp, hm⟩ := drw_inv h
    exact master_shape (Or.inl (by rw [hp]; exact nextPC_le _)) hm
  · by_cases hA : code / 16 % 16 = 9 ∧ code % 16 = 14
    · rw [run_op_code_skp r code s h1 hA.1 hA.2] at h
      obtain ⟨hp | hp, hm⟩ := skp_vx_inv h <;>
        exact master_shape (Or.inl (by rw [hp]; exact nextPC_le _)) hm
    · by_cases hB : code / 16 % 16 = 10 ∧ code % 16 = 1
      · rw [run_op_code_sknp r code s h1 hB.1 hB.2] at h
        obtain ⟨hp | hp, hm⟩ := sknp_vx_inv h <;>
          exact master_shape (Or.inl (by rw [hp]; exact nextPC_le _)) hm
      · rw [run_op_code_unknown r code s (by unfold recognized; omega)] at h
        simp at h
        subst h
        exact master_shape (Or.inl (nextPC_le _)) rfl
  · by_cases hA : code / 16 % 16 = 0 ∧ code % 16 = 7
    · rw [run_op_code_ld_vx_dt r code s h1 hA.1 hA.2] at h
      obtain ⟨hp, hm⟩ := ld_vx_dt_inv h
      exact master_shape (Or.inl (by rw [hp]; exact nextPC_le _)) hm
    · by_cases hB : code / 16 % 16 = 0 ∧ code % 16 = 10
      · rw [run_op_code_ld_vx_k r code s h1 hB.1 hB.2] at h
        obtain ⟨hp | hp, hm⟩ := ld_vx_k_inv h
        · exact master_shape (Or.inl (by rw [hp]; exact nextPC_le _)) hm
        · exact master_shape (Or.inr hp) hm
      · by_cases hC : code / 16 % 16 = 1 ∧ code % 16 = 5
        · rw [run_op_code_ld_dt_vx r code s h1 hC.1 hC.2] at h
          obtain ⟨hp, hm⟩ := ld_dt_vx_inv h
          exact master_shape (Or.inl (by rw [hp]; exact nextPC_le _)) hm
        · by_cases hD : code / 16 % 16 = 1 ∧ code % 16 = 8
          · rw [run_op_code_ld_st_vx r code s h1 hD.1 hD.2] at h
            obtain ⟨hp, hm⟩ := ld_st_vx_inv h
            exact master_shape (Or.inl (by rw [hp]; exact nextPC_le _)) hm
          · by_cases hE : code / 16 % 16 = 1 ∧ code % 16 = 14
            · rw [run_op_code_add_i_vx r code s h1 hE.1 hE.2] at h
              obtain ⟨hp, hm⟩ := add_i_vx_inv h
              exact master_shape (Or.inl (by rw [hp]; exact nextPC_le _)) hm
            · by_cases hF : code / 16 % 16 = 2 ∧ code % 16 = 9
              · rw [run_op_code_ld_f_vx r code s h1 hF.1 hF.2] at h
                obtain ⟨hp, hm⟩ := ld_f_vx_inv h
                exact master_shape (Or.inl (by rw [hp]; exact nextPC_le _)) hm
              · by_cases hG : code / 16 % 16 = 3 ∧ code % 16 = 3
                · rw [run_op_code_ld_b_vx r code s h1 hG.1 hG.2] at h
                  obtain ⟨hp, hm⟩ := ld_b_vx_inv h
                  exact ⟨Or.inl (by rw [hp]; exact nextPC_le _), hm,
                    fun hn33 _ => absurd ⟨h1, hG.1, hG.2⟩ hn33⟩
                · by_cases hH : code / 16 % 16 = 5 ∧ code % 16 = 5
                  · rw [run_op_code_ld_i_vx r code s h1 hH.1 hH.2] at h
                    obtain ⟨hp, hm⟩ := ld_i_vx_inv h
                    exact ⟨Or.inl (by rw [hp]; exact nextPC_le _), hm,
                      fun _ hn55 => absurd ⟨h1, hH.1, hH.2⟩ hn55⟩
                  · by_cases hI : code / 16 % 16 = 6 ∧ code % 16 = 5
                    · rw [run_op_code_ld_vx_i r code s h1 hI.1 hI.2] at h
                      obtain ⟨hp, hm⟩ := ld_vx_i_inv h
                      exact master_shape (Or.inl (by rw [hp]; exact nextPC_le _)) hm
                    · rw [run_op_code_unknown r code s (by unfold recognized; omega)] at h
                      simp at h
                      subst h
                      exact master_shape (Or.inl (nextPC_le _)) rfl

/-! ### C1: RET semantics. -/

/-- Machine state with stack depth 2 and constant stack value 3. -/
def stateC1 : Chip8 := { chip8_new with sp := 2, stack := fun _ => 3 }

/-- C1 counterexample: with stack depth 2 and stack[1] = 3, RET leaves
PC = 5 and not PC = 3 — the handler pops and then also runs `next_program`. -/
theorem C1_counterexample :
    (run_op_code 0 0x00EE stateC1).map (fun s => (s.pc, s.sp)) = .ok (5, 1) ∧
    ((5 : Nat), (1 : Nat)) ≠ ((3 : Nat), (1 : Nat)) :=
  ⟨rfl, by decide⟩

/-- C1 (amended): for every state with stack depth between 1 and 32, opcode
00EE pops the top stack entry `a` and leaves PC = min(a + 2, 0xFFF) — the
popped address plus one standard instruction advance, clamped — and
decrements the stack depth by 1; no other state component changes. -/
theorem C1_ret (r : Nat) (s : Chip8) (h1 : 1 ≤ s.sp) (h2 : s.sp ≤ 32) :
    run_op_code r 0x00EE s =
      .ok { s with sp := s.sp - 1, pc := nextPC (s.stack (s.sp - 1)) } := by
  rw [run_op_code_ret r 0x00EE s (by decide) (by decide) (by decide) (by decide)]
  unfold ret
  rw [if_pos ⟨h1, by omega⟩]
  rfl

/-- C1 witness: the theorem applied at the concrete depth-2 state. -/
theorem C1_witness :
    1 ≤ stateC1.sp ∧ stateC1.sp ≤ 32 ∧
    run_op_code 0 0x00EE stateC1 =
      .ok { stateC1 with sp := stateC1.sp - 1, pc := nextPC (stateC1.stack (stateC1.sp - 1)) } :=
  ⟨by decide, by decide, C1_ret 0 stateC1 (by decide) (by decide)⟩

/-! ### C3: unknown opcodes. -/

/-- Machine state whose pc sits two bytes below the top of memory. -/
def stateC3 : Chip8 := { chip8_new with pc := 0xFFE }

/-- C3 counterexample: the unrecognized word 0x0000 executed at PC = 0xFFE
advances PC by one byte only (to the 0xFFF clamp), not by exactly two. -/
theorem C3_counterexample :
    (run_op_code 0 0x0000 stateC3).map (fun s => s.pc) = .ok 0xFFF ∧
    ¬ recognized 0x0000 ∧ (0xFFF : Nat) ≠ 0xFFE + 2 :=
  ⟨rfl, by unfold recognized; omega, by decide⟩

/-- C3 (amended): executing any instruction word matching none of the 34
dispatched patterns leaves every state component unchanged except
PC := min(PC + 2, 0xFFF) (an advance of exactly 2 bytes whenever
PC + 2 ≤ 0xFFF); the machine keeps running, but the condition is a silent
skip — the dispatcher produces no error or report of any kind. -/
theorem C3_unknown_opcode (r code : Nat) (s : Chip8) (h : ¬ recognized code) :
    run_op_code r code s = .ok { s with pc := nextPC s.pc } :=
  run_op_code_unknown r code s h

/-- C3 witness: the theorem applied to word 0x0000 at the initial state. -/
theorem C3_witness :
    ¬ recognized 0x0000 ∧
    run_op_code 0 0x0000 chip8_new = .ok { chip8_new with pc := nextPC chip8_new.pc } :=
  ⟨by unfold recognized; omega,
   C3_unknown_opcode 0 0x0000 chip8_new (by unfold recognized; omega)⟩

/-! ### C6: 8xy4 add with carry. -/

/-- Machine state with VF = 10 and V0 = 20. -/
def stateC6 : Chip8 :=
  { chip8_new with v := fun j => if j = 15 then 10 else if j = 0 then 20 else 0 }

/-- C6 counterexample: for x = 0xF (VF = 10, V0 = 20) opcode 8F04 leaves
VF = 0, the carry flag, not (10 + 20) mod 256 = 30 as the claim asserts for
Vx: the handler writes the sum to Vx first and then overwrites VF. -/
theorem C6_counterexample :
    (run_op_code 0 0x8F04 stateC6).map (fun s => s.v 15) = .ok 0 ∧
    (0 : Nat) ≠ (10 + 20) % 256 :=
  ⟨rfl, by decide⟩

/-- C6 (amended): for 8-bit values a, b in Vx, Vy, opcode 8xy4 always leaves
VF = 1 iff a + b > 255 (else 0), advances PC by the standard clamped step, and
leaves Vx = (a + b) mod 256 provided x ≠ 0xF; for x = 0xF the sum is
overwritten by the flag. -/
theorem C6_add_vx_vy (r x y a b : Nat) (s : Chip8) (hx : x < 16) (hy : y < 16)
    (ha : s.v x = a) (hb : s.v y = b) (ha2 : a < 256) (hb2 : b < 256) :
    ∃ t, run_op_code r (0x8004 + x * 256 + y * 16) s = .ok t ∧
      t.v 15 = (if 255 < a + b then 1 else 0) ∧
      (x ≠ 15 → t.v x = (a + b) % 256) ∧
      t.pc = nextPC s.pc := by
  have e1 : (0x8004 + x * 256 + y * 16) / 4096 % 16 = 8 := by omega
  have e4 : (0x8004 + x * 256 + y * 16) % 16 = 4 := by omega
  have e2 : (0x8004 + x * 256 + y * 16) / 256 % 16 = x := by omega
  have e3 : (0x8004 + x * 256 + y * 16) / 16 % 16 = y := by omega
  rw [run_op_code_add_vx_vy r _ s e1 e4, e2, e3]
  unfold add_vx_vy
  refine ⟨_, rfl, ?_, ?_, rfl⟩
  · show Function.update (Function.update s.v x ((s.v x + s.v y) % 256)) 15
      (if 256 ≤ s.v x + s.v y then 1 else 0) 15 = _
    rw [Function.update_same, ha, hb]
    split <;> split <;> omega
  · intro hx15
    show Function.update (Function.update s.v x ((s.v x + s.v y) % 256)) 15
      (if 256 ≤ s.v x + s.v y then 1 else 0) x = _
    rw [Function.update_noteq hx15, Function.update_same, ha, hb]

/-- C6 witness: the theorem applied with x = 1, y = 0 on the concrete state
(V1 = 0, V0 = 20). -/
theorem C6_witness :
    stateC6.v 1 = 0 ∧ stateC6.v 0 = 20 ∧
    ∃ t, run_op_code 0 (0x8004 + 1 * 256 + 0 * 16) stateC6 = .ok t ∧
      t.v 15 = (if 255 < 0 + 20 then 1 else 0) ∧
      ((1 : Nat) ≠ 15 → t.v 1 = (0 + 20) % 256) ∧
      t.pc = nextPC stateC6.pc :=
  ⟨rfl, rfl, C6_add_vx_vy 0 1 0 0 20 stateC6 (by decide) (by decide) rfl rfl
    (by decide) (by decide)⟩

/-! ### C9: pc stays in bounds. -/

/-- C9 counterexample: jumping to 0xFFF (opcode 1FFF) from the initial state
puts PC at 0xFFF, the last byte of memory, so PC + 1 is not a valid memory
address — the next fetch of the high and low instruction bytes panics. -/
theorem C9_counterexample :
    (run_op_code 0 0x1FFF chip8_new).map (fun s => s.pc) = .ok 0xFFF ∧
    ¬ (0xFFF + 1 ≤ 4095) :=
  ⟨rfl, by decide⟩

/-- C9 (amended): from any state with PC ≤ 4095 and all stack entries ≤ 4095,
executing any single opcode that completes successfully leaves PC ≤ 4095 —
but PC may equal 4095 = 0xFFF itself, in which case PC does not point at a
full 2-byte instruction. -/
theorem C9_pc_in_bounds (r code : Nat) (s t : Chip8)
    (hpc : s.pc ≤ 4095) (hstack : ∀ k, k < 32 → s.stack k ≤ 4095)
    (h : run_op_code r code s = .ok t) : t.pc ≤ 4095 := by
  rcases (run_op_code_inv h).1 with h2 | h2
  · exact h2
  · rw [h2]; exact hpc

/-- C9 witness: the theorem applied to opcode 00E0 at the initial state. -/
theorem C9_witness :
    chip8_new.pc ≤ 4095 ∧
    (next_program { chip8_new with frame := fun _ _ => 0 }).pc ≤ 4095 :=
  ⟨by decide,
   C9_pc_in_bounds 0 0x00E0 chip8_new _ (by decide) (fun k _ => Nat.zero_le 4095) rfl⟩

/-! ### C10: Fx0A wait-for-key. -/

/-- Machine state near the top of memory with key 5 held down. -/
def stateC10 : Chip8 := { chip8_new with pc := 0xFFE, keypad := some 5 }

/-- C10 counterexample: with key 5 held and PC = 0xFFE, opcode F10A stores the
key but advances PC by only one byte (to the 0xFFF clamp), not exactly 2. -/
theorem C10_counterexample :
    (run_op_code 0 0xF10A stateC10).map (fun s => (s.v 1, s.pc)) = .ok (5, 0xFFF) ∧
    (0xFFF : Nat) ≠ 0xFFE + 2 :=
  ⟨rfl, by decide⟩

/-- C10 (amended): executing Fx0A when no key is held returns the state
completely unchanged (so the same instruction is fetched again on the next
cycle); when key k is held, it sets Vx := k and sets PC := min(PC + 2, 0xFFF)
(an advance of exactly 2 bytes whenever PC + 2 ≤ 0xFFF). -/
theorem C10_ld_vx_k (r x k : Nat) (s : Chip8) (hx : x < 16) :
    (s.keypad = none → run_op_code r (0xF00A + x * 256) s = .ok s) ∧
    (s.keypad = some k →
      run_op_code r (0xF00A + x * 256) s =
        .ok { s with v := Function.update s.v x k, pc := nextPC s.pc }) := by
  have e1 : (0xF00A + x * 256) / 4096 % 16 = 15 := by omega
  have e3 : (0xF00A + x * 256) / 16 % 16 = 0 := by omega
  have e4 : (0xF00A + x * 256) % 16 = 10 := by omega
  have e2 : (0xF00A + x * 256) / 256 % 16 = x := by omega
  constructor
  · intro hk
    rw [run_op_code_ld_vx_k r _ s e1 e3 e4, e2]
    unfold ld_vx_k
    rw [hk]
  · intro hk
    rw [run_op_code_ld_vx_k r _ s e1 e3 e4, e2]
    unfold ld_vx_k
    rw [hk]
    rfl

/-- C10 witness: the theorem applied at the concrete key-down state with
x = 1 and k = 5. -/
theorem C10_witness :
    stateC10.keypad = some 5 ∧
    run_op_code 0 (0xF00A + 1 * 256) stateC10 =
      .ok { stateC10 with v := Function.update stateC10.v 1 5, pc := nextPC stateC10.pc } :=
  ⟨rfl, (C10_ld_vx_k 0 1 5 stateC10 (by decide)).2 rfl⟩

/-! ### C4: I-relative memory accesses are bounds checked. -/

/-- `Except.bind` of an error propagates the error. -/
theorem exbind_error {α β γ : Type} (g : γ) (f : α → Except γ β) :
    Except.bind (Except.error g) f = Except.error g := rfl

/-- Mapping over a result does not change success. -/
theorem execOk_map (e : Except Chip8Err Chip8) (f : Chip8 → Chip8) :
    execOk (e.map f) = execOk e := by
  cases e <;> rfl

/-- A BCD store whose last byte would land outside memory panics. -/
theorem ld_b_vx_err (x : Nat) (s : Chip8) (h : 4096 ≤ s.i + 2) :
    ld_b_vx x s = .error .panic := by
  by_cases h1 : s.i < 4096
  · by_cases h2 : s.i + 1 < 4096
    · have h3 : ¬ s.i + 2 < 4096 := by omega
      simp [ld_b_vx, memWrite, Except.bind, h1, h2, h3]
    · simp [ld_b_vx, memWrite, Except.bind, h1, h2]
  · simp [ld_b_vx, memWrite, Except.bind, h1]

/-- An in-bounds BCD store succeeds. -/
theorem ld_b_vx_ok (x : Nat) (s : Chip8) (h : s.i + 2 < 4096) :
    execOk (ld_b_vx x s) = true := by
  have h1 : s.i < 4096 := by omega
  have h2 : s.i + 1 < 4096 := by omega
  simp [ld_b_vx, memWrite, Except.bind, h1, h2, h, execOk]

/-- An in-bounds sprite row loop succeeds. -/
theorem drawRowsFrom_ok (x y : Nat) : ∀ (fuel row : Nat) (s : Chip8),
    s.i + row + fuel ≤ 4096 → ∃ t, drawRowsFrom x y row fuel s = .ok t := by
  intro fuel
  induction fuel with
  | zero => intro row s _; exact ⟨s, rfl⟩
  | succ fuel ih =>
    intro row s hb
    have hlt : s.i + row < 4096 := by omega
    simp only [drawRowsFrom, if_pos hlt]
    apply ih
    obtain ⟨_, hi, _⟩ := drawBitsFrom_pres x ((s.v y + row) % 256 % 32) (s.memory (s.i + row)) 8 0 s
    rw [hi]
    omega

/-- A sprite row loop that would read past memory panics. -/
theorem drawRowsFrom_err (x y : Nat) : ∀ (fuel row : Nat) (s : Chip8),
    0 < fuel → 4096 < s.i + row + fuel → drawRowsFrom x y row fuel s = .error .panic := by
  intro fuel
  induction fuel with
  | zero => intro row s h; omega
  | succ fuel ih =>
    intro row s _ hb
    by_cases hlt : s.i + row < 4096
    · simp only [drawRowsFrom, if_pos hlt]
      apply ih _ _ (by omega)
      obtain ⟨_, hi, _⟩ := drawBitsFrom_pres x ((s.v y + row) % 256 % 32) (s.memory (s.i + row)) 8 0 s
      rw [hi]
      omega
    · simp only [drawRowsFrom, if_neg hlt]

/-- C4: every I-relative memory access of Fx33 (BCD store), Fx55 (register
store), Fx65 (register load) and Dxyn (sprite fetch) is bounds checked
against the 4096-byte memory: the handler completes successfully exactly when
every derived address I, I+1, ..., is below 4096, and otherwise it panics —
a fatal halt surfaced to the caller as an error, never an unchecked access. -/
theorem C4_bounds_checked (x y n : Nat) (s : Chip8) :
    (execOk (ld_b_vx x s) = true ↔ s.i + 2 < 4096) ∧
    (execOk (ld_i_vx x s) = true ↔ s.i + x < 4096) ∧
    (execOk (ld_vx_i x s) = true ↔ s.i + x < 4096) ∧
    (execOk (drw_vx_vy_nibble x y n s) = true ↔ (n = 0 ∨ s.i + n ≤ 4096)) := by
  refine ⟨⟨?_, ld_b_vx_ok x s⟩, ⟨?_, ?_⟩, ⟨?_, ?_⟩, ⟨?_, ?_⟩⟩
  · intro hok
    by_contra hge
    rw [ld_b_vx_err x s (by omega)] at hok
    simp [execOk] at hok
  · intro hok
    by_contra hge
    unfold ld_i_vx at hok
    rw [execOk_map, storeRegs_err (x + 1) 0 s (by omega) (by omega)] at hok
    simp [execOk] at hok
  · intro hlt
    unfold ld_i_vx
    rw [execOk_map]
    obtain ⟨t, ht, _⟩ := storeRegs_spec (x + 1) 0 s (by omega)
    rw [ht]
    rfl
  · intro hok
    by_contra hge
    unfold ld_vx_i at hok
    rw [execOk_map, loadRegs_err (x + 1) 0 s (by omega) (by omega)] at hok
    simp [execOk] at hok
  · intro hlt
    unfold ld_vx_i
    rw [execOk_map]
    obtain ⟨t, ht, _⟩ := loadRegs_spec (x + 1) 0 s (by omega)
    rw [ht]
    rfl
  · intro hok
    by_contra hge
    unfold drw_vx_vy_nibble at hok
    rw [execOk_map] at hok
    rw [drawRowsFrom_err x y n 0 { s with v := Function.update s.v 15 0 }
      (by omega) (by simp; omega)] at hok
    simp [execOk] at hok
  · intro hc
    unfold drw_vx_vy_nibble
    rw [execOk_map]
    rcases hc with hc | hc
    · subst hc
      rfl
    · obtain ⟨t, ht⟩ := drawRowsFrom_ok x y n 0 { s with v := Function.update s.v 15 0 }
        (by simp; omega)
      rw [ht]
      rfl

/-! ### C8: Fx55 then Fx65 round-trip. -/

/-- C8: for every register index x ≤ 0xF and base address with I + x inside
memory, executing Fx55 and then Fx65 (the index register is untouched in
between) restores the original values of V0 through Vx inclusive. -/
theorem C8_store_load_roundtrip (r1 r2 x : Nat) (s : Chip8) (hx : x < 16)
    (hb : s.i + x < 4096) :
    ∃ s1 s2, run_op_code r1 (0xF055 + x * 256) s = .ok s1 ∧
      run_op_code r2 (0xF065 + x * 256) s1 = .ok s2 ∧
      ∀ j, j ≤ x → s2.v j = s.v j := by
  have e1 : (0xF055 + x * 256) / 4096 % 16 = 15 := by omega
  have e3 : (0xF055 + x * 256) / 16 % 16 = 5 := by omega
  have e4 : (0xF055 + x * 256) % 16 = 5 := by omega
  have e2 : (0xF055 + x * 256) / 256 % 16 = x := by omega
  obtain ⟨t, ht, _, hi, hv, _, _, _, _, _, _, hout, hin⟩ := storeRegs_spec (x + 1) 0 s (by omega)
  have step1 : run_op_code r1 (0xF055 + x * 256) s = .ok (next_program t) := by
    rw [run_op_code_ld_i_vx r1 _ s e1 e3 e4, e2]
    unfold ld_i_vx
    rw [ht]
    rfl
  have f1 : (0xF065 + x * 256) / 4096 % 16 = 15 := by omega
  have f3 : (0xF065 + x * 256) / 16 % 16 = 6 := by omega
  have f4 : (0xF065 + x * 256) % 16 = 5 := by omega
  have f2 : (0xF065 + x * 256) / 256 % 16 = x := by omega
  have hi2 : (next_program t).i = s.i := by
    show t.i = s.i
    exact hi
  obtain ⟨u, hu, _, _, _, _, _, _, _, _, _, hout2, hin2⟩ :=
    loadRegs_spec (x + 1) 0 (next_program t) (by rw [hi2]; omega)
  have step2 : run_op_code r2 (0xF065 + x * 256) (next_program t) = .ok (next_program u) := by
    rw [run_op_code_ld_vx_i r2 _ (next_program t) f1 f3 f4, f2]
    unfold ld_vx_i
    rw [hu]
    rfl
  refine ⟨next_program t, next_program u, step1, step2, fun j hj => ?_⟩
  have hj2 : j < x + 1 := by omega
  have h1 := hin2 j hj2
  have h3 := hin j hj2
  have e0 : (0 : Nat) + j = j := by omega
  rw [e0] at h1 h3
  show u.v j = s.v j
  rw [h1]
  show t.memory (t.i + 0 + j) = s.v j
  rw [hi]
  exact h3

/-- C8 witness: the round-trip theorem applied with x = 2 at the initial
state (I = 0x200). -/
theorem C8_witness :
    (2 : Nat) < 16 ∧ chip8_new.i + 2 < 4096 ∧
    ∃ s1 s2, run_op_code 0 (0xF055 + 2 * 256) chip8_new = .ok s1 ∧
      run_op_code 0 (0xF065 + 2 * 256) s1 = .ok s2 ∧
      ∀ j, j ≤ 2 → s2.v j = chip8_new.v j :=
  ⟨by decide, by decide, C8_store_load_roundtrip 0 0 2 chip8_new (by decide) (by decide)⟩

/-! ### C2: pc advance of conditional skips and plain handlers. -/

/-- The instruction word is dispatched to a handler that is neither
control flow (00EE, 1nnn, 2nnn, Bnnn), nor a conditional skip, nor the
blocking Fx0A, nor the unknown-opcode arm. -/
def plain_op (code : Nat) : Prop :=
  (code / 4096 % 16 = 0 ∧ code / 256 % 16 = 0 ∧ code / 16 % 16 = 14 ∧ code % 16 = 0) ∨
  (code / 4096 % 16 = 6) ∨ (code / 4096 % 16 = 7) ∨
  (code / 4096 % 16 = 8 ∧ (code % 16 = 0 ∨ code % 16 = 1 ∨ code % 16 = 2 ∨ code % 16 = 3 ∨
    code % 16 = 4 ∨ code % 16 = 5 ∨ code % 16 = 6 ∨ code % 16 = 7 ∨ code % 16 = 14)) ∨
  (code / 4096 % 16 = 10) ∨ (code / 4096 % 16 = 12) ∨ (code / 4096 % 16 = 13) ∨
  (code / 4096 % 16 = 15 ∧ ((code / 16 % 16 = 0 ∧ code % 16 = 7) ∨
    (code / 16 % 16 = 1 ∧ code % 16 = 5) ∨ (code / 16 % 16 = 1 ∧ code % 16 = 8) ∨
    (code / 16 % 16 = 1 ∧ code % 16 = 14) ∨ (code / 16 % 16 = 2 ∧ code % 16 = 9) ∨
    (code / 16 % 16 = 3 ∧ code % 16 = 3) ∨ (code / 16 % 16 = 5 ∧ code % 16 = 5) ∨
    (code / 16 % 16 = 6 ∧ code % 16 = 5)))

/-- Machine state with pc two bytes below the top of memory. -/
def stateC2 : Chip8 := { chip8_new with pc := 0xFFE }

/-- C2 counterexample: the plain handler 6xkk executed at PC = 0xFFE advances
PC by a single byte only, to the 0xFFF clamp, not by exactly 2. -/
theorem C2_counterexample :
    plain_op 0x6000 ∧
    (run_op_code 0 0x6000 stateC2).map (fun s => s.pc) = .ok 0xFFF ∧
    (0xFFF : Nat) ≠ 0xFFE + 2 :=
  ⟨by unfold plain_op; omega, rfl, by decide⟩

/-- C2 (amended): each conditional-skip opcode (3xkk, 4xkk, 5xy0, 9xy0, Ex9E,
ExA1) sets PC to nextPC (nextPC PC) when its condition holds and to nextPC PC
when it does not, and every plain (non-control-flow, non-skip, non-Fx0A)
handler that completes successfully sets PC to nextPC PC, where
nextPC p = min (p + 2) 0xFFF: the advances are exactly 4 resp. 2 bytes
whenever they stay below the 0xFFF clamp. -/
theorem C2_pc_advance (r code : Nat) (s : Chip8) :
    ((code / 4096 % 16 = 3) →
      run_op_code r code s = .ok { s with pc :=
        if (s.v (code / 256 % 16) = code % 256) then nextPC (nextPC s.pc) else nextPC s.pc }) ∧
    ((code / 4096 % 16 = 4) →
      run_op_code r code s = .ok { s with pc :=
        if (s.v (code / 256 % 16) ≠ code % 256) then nextPC (nextPC s.pc) else nextPC s.pc }) ∧
    ((code / 4096 % 16 = 5 ∧ code % 16 = 0) →
      run_op_code r code s = .ok { s with pc :=
        (if (s.v (code / 256 % 16) = s.v (code / 16 % 16)) then nextPC (nextPC s.pc)
          else nextPC s.pc) }) ∧
    ((code / 4096 % 16 = 9 ∧ code % 16 = 0) →
      run_op_code r code s = .ok { s with pc :=
        (if (s.v (code / 256 % 16) ≠ s.v (code / 16 % 16)) then nextPC (nextPC s.pc)
          else nextPC s.pc) }) ∧
    ((code / 4096 % 16 = 14 ∧ code / 16 % 16 = 9 ∧ code % 16 = 14) →
      run_op_code r code s = .ok { s with pc :=
        (if (is_pressed s.keypad (s.v (code / 256 % 16)) : Bool) then nextPC (nextPC s.pc)
          else nextPC s.pc) }) ∧
    ((code / 4096 % 16 = 14 ∧ code / 16 % 16 = 10 ∧ code % 16 = 1) →
      run_op_code r code s = .ok { s with pc :=
        (if (is_pressed s.keypad (s.v (code / 256 % 16)) : Bool) then nextPC s.pc
          else nextPC (nextPC s.pc)) }) ∧
    (plain_op code → ∀ t, run_op_code r code s = .ok t → t.pc = nextPC s.pc) := by
  refine ⟨?_, ?_, ?_, ?_, ?_, ?_, ?_⟩
  · intro h1
    rw [run_op_code_se_vx_byte r code s h1]
    unfold se_vx_byte
    by_cases hc : s.v (code / 256 % 16) = code % 256 <;> simp [hc, next_program]
  · intro h1
    rw [run_op_code_sne_vx_byte r code s h1]
    unfold sne_vx_byte
    by_cases hc : s.v (code / 256 % 16) = code % 256 <;> simp [hc, next_program]
  · intro h1
    rw [run_op_code_se_vx_vy r code s h1.1 h1.2]
    unfold se_vx_vy
    by_cases hc : s.v (code / 256 % 16) = s.v (code / 16 % 16) <;> simp [hc, next_program]
  · intro h1
    rw [run_op_code_sne_vx_vy r code s h1.1 h1.2]
    unfold sne_vx_vy
    by_cases hc : s.v (code / 256 % 16) = s.v (code / 16 % 16) <;> simp [hc, next_program]
  · intro h1
    rw [run_op_code_skp r code s h1.1 h1.2.1 h1.2.2]
    unfold skp_vx
    by_cases hc : is_pressed s.keypad (s.v (code / 256 % 16)) <;> simp [hc, next_program]
  · intro h1
    rw [run_op_code_sknp r code s h1.1 h1.2.1 h1.2.2]
    unfold sknp_vx
    by_cases hc : is_pressed s.keypad (s.v (code / 256 % 16)) <;> simp [hc, next_program]
  · intro hp t ht
    rcases hp with h1 | h1 | h1 | ⟨h1, h4⟩ | h1 | h1 | h1 | ⟨h1, h34⟩
    · rw [run_op_code_cls r code s h1.1 h1.2.1 h1.2.2.1 h1.2.2.2] at ht
      exact (cls_inv ht).1
    · rw [run_op_code_ld_vx_byte r code s h1] at ht
      exact (ld_vx_byte_inv ht).1
    · rw [run_op_code_add_vx_byte r code s h1] at ht
      exact (add_vx_byte_inv ht).1
    · rcases h4 with h4 | h4 | h4 | h4 | h4 | h4 | h4 | h4 | h4
      · rw [run_op_code_ld_vx_vy r code s h1 h4] at ht
        exact (ld_vx_vy_inv ht).1
      · rw [run_op_code_or_vx_vy r code s h1 h4] at ht
        exact (or_vx_vy_inv ht).1
      · rw [run_op_code_and_vx_vy r code s h1 h4] at ht
        exact (and_vx_vy_inv ht).1
      · rw [run_op_code_xor_vx_vy r code s h1 h4] at ht
        exact (xor_vx_vy_inv ht).1
      · rw [run_op_code_add_vx_vy r code s h1 h4] at ht
        exact (add_vx_vy_inv ht).1
      · rw [run_op_code_sub_vx_vy r code s h1 h4] at ht
        exact (sub_vx_vy_inv ht).1
      · rw [run_op_code_shr_vx_vy r code s h1 h4] at ht
        exact (shr_vx_vy_inv ht).1
      · rw [run_op_code_subn_vx_vy r code s h1 h4] at ht
        exact (subn_vx_vy_inv ht).1
      · rw [run_op_code_shl_vx_vy r code s h1 h4] at ht
        exact (shl_vx_vy_inv ht).1
    · rw [run_op_code_ld_i_addr r code s h1] at ht
      exact (ld_i_addr_inv ht).1
    · rw [run_op_code_rnd r code s h1] at ht
      exact (rnd_vx_byte_inv ht).1
    · rw [run_op_code_drw r code s h1] at ht
      exact (drw_inv ht).1
    · rcases h34 with ⟨h3, h4⟩ | ⟨h3, h4⟩ | ⟨h3, h4⟩ | ⟨h3, h4⟩ | ⟨h3, h4⟩ | ⟨h3, h4⟩ |
        ⟨h3, h4⟩ | ⟨h3, h4⟩
      · rw [run_op_code_ld_vx_dt r code s h1 h3 h4] at ht
        exact (ld_vx_dt_inv ht).1
      · rw [run_op_code_ld_dt_vx r code s h1 h3 h4] at ht
        exact (ld_dt_vx_inv ht).1
      · rw [run_op_code_ld_st_vx r code s h1 h3 h4] at ht
        exact (ld_st_vx_inv ht).1
      · rw [run_op_code_add_i_vx r code s h1 h3 h4] at ht
        exact (add_i_vx_inv ht).1
      · rw [run_op_code_ld_f_vx r code s h1 h3 h4] at ht
        exact (ld_f_vx_inv ht).1
      · rw [run_op_code_ld_b_vx r code s h1 h3 h4] at ht
        exact (ld_b_vx_inv ht).1
      · rw [run_op_code_ld_i_vx r code s h1 h3 h4] at ht
        exact (ld_i_vx_inv ht).1
      · rw [run_op_code_ld_vx_i r code s h1 h3 h4] at ht
        exact (ld_vx_i_inv ht).1

/-- C2 witness: the 3xkk conjunct of the theorem applied at the initial state
with word 0x3200 (condition V2 = 0 holds, giving a 4-byte advance), and the
plain conjunct applied to 00E0. -/
theorem C2_witness :
    ((0x3200 : Nat) / 4096 % 16 = 3 ∧
      run_op_code 0 0x3200 chip8_new = .ok { chip8_new with pc :=
        (if (chip8_new.v (0x3200 / 256 % 16) = 0x3200 % 256) then nextPC (nextPC chip8_new.pc)
          else nextPC chip8_new.pc) }) ∧
    (plain_op 0x00E0 ∧
      (next_program { chip8_new with frame := fun _ _ => 0 }).pc = nextPC chip8_new.pc) :=
  ⟨⟨by decide, (C2_pc_advance 0 0x3200 chip8_new).1 (by decide)⟩,
   ⟨by unfold plain_op; omega,
    (C2_pc_advance 0 0x00E0 chip8_new).2.2.2.2.2.2 (by unfold plain_op; omega) _ rfl⟩⟩

/-! ### C7: the font region. -/

/-- A four-byte program: A000 (I := 0) followed by F033 (BCD store at I). -/
def romC7 : List Nat := [0xA0, 0x00, 0xF0, 0x33]

/-- C7 counterexample: from the initial state, loading the program
[A000, F033] and executing its two instructions overwrites font byte 0x000
(0xF0, the glyph for 0) with the BCD hundreds digit 0 — opcode execution can
mutate the font region. -/
theorem C7_counterexample :
    (((load_rom romC7 chip8_new).bind (fetch_execute 0)).bind (fetch_execute 0)).map
      (fun s => s.memory 0) = .ok 0 ∧
    chip8_new.memory 0 = 0xF0 ∧ (0 : Nat) ≠ 0xF0 :=
  ⟨rfl, rfl, by decide⟩

/-- C7 (amended): only Fx33 and Fx55 write to memory at all, and they write
only at addresses ≥ I; hence executing any single opcode preserves the font
region (bytes 0x000–0x04F) whenever the opcode is not Fx33/Fx55 or the index
register is at least 0x50.  (Fx33/Fx55 with I < 0x50 can and do overwrite
font bytes.) -/
theorem C7_font_region (r code : Nat) (s t : Chip8)
    (h : run_op_code r code s = .ok t)
    (hsafe : (¬ ((code / 4096 % 16 = 15 ∧ code / 16 % 16 = 3 ∧ code % 16 = 3) ∨
                 (code / 4096 % 16 = 15 ∧ code / 16 % 16 = 5 ∧ code % 16 = 5))) ∨ 80 ≤ s.i) :
    ∀ a, a < 80 → t.memory a = s.memory a := by
  obtain ⟨_, hbelow, hfull⟩ := run_op_code_inv h
  rcases hsafe with hno | hge
  · intro a _
    rw [hfull (fun hc => hno (Or.inl hc)) (fun hc => hno (Or.inr hc))]
  · intro a ha
    exact hbelow a (by omega)

/-- C7 witness: the theorem applied to opcode 00E0 at the initial state,
evaluated at font byte 0. -/
theorem C7_witness :
    run_op_code 0 0x00E0 chip8_new = .ok (next_program { chip8_new with frame := fun _ _ => 0 }) ∧
    (next_program { chip8_new with frame := fun _ _ => 0 }).memory 0 = chip8_new.memory 0 :=
  ⟨rfl, C7_font_region 0 0x00E0 chip8_new _ rfl (Or.inl (by omega)) 0 (by decide)⟩

/-! ### C5: sprite drawing.  Helpers about single bits. -/

/-- Reducing mod 256 and then mod 64 is reducing mod 64. -/
theorem mod256_mod64 (m : Nat) : m % 256 % 64 = m % 64 :=
  Nat.mod_mod_of_dvd m (by norm_num)

/-- Reducing mod 256 and then mod 32 is reducing mod 32. -/
theorem mod256_mod32 (m : Nat) : m % 256 % 32 = m % 32 :=
  Nat.mod_mod_of_dvd m (by norm_num)

/-- A sprite bit is 0 or 1. -/
theorem pix_le_one (sprite k : Nat) : sprite >>> k &&& 1 ≤ 1 := Nat.and_le_right

/-- A collision term (pixel AND sprite bit) is 0 or 1. -/
theorem term_le_one (f p : Nat) (hp : p ≤ 1) : f &&& p ≤ 1 :=
  le_trans Nat.and_le_right hp

/-- Bitwise or of two flag bits is a flag bit. -/
theorem or_le_one {a b : Nat} (ha : a ≤ 1) (hb : b ≤ 1) : a ||| b ≤ 1 := by
  interval_cases a <;> interval_cases b <;> decide

/-- A flag-bit or is 1 exactly when one side is. -/
theorem or_eq_one_iff {a b : Nat} (ha : a ≤ 1) (hb : b ≤ 1) :
    a ||| b = 1 ↔ (a = 1 ∨ b = 1) := by
  interval_cases a <;> interval_cases b <;> decide

/-- A flag-bit and is 1 exactly when both sides are. -/
theorem and_eq_one_iff {a b : Nat} (ha : a ≤ 1) (hb : b ≤ 1) :
    a &&& b = 1 ↔ (a = 1 ∧ b = 1) := by
  interval_cases a <;> interval_cases b <;> decide

/-- Two distinct sprite columns land on distinct framebuffer columns. -/
theorem col_ne {X c1 c2 : Nat} (h1 : c1 < 8) (h2 : c2 < 8) (hne : c1 ≠ c2) :
    (X + c1) % 64 ≠ (X + c2) % 64 := by omega

/-- Two distinct sprite rows land on distinct framebuffer rows. -/
theorem row_ne {Y r1 r2 : Nat} (h1 : r1 < 16) (h2 : r2 < 16) (hne : r1 ≠ r2) :
    (Y + r1) % 32 ≠ (Y + r2) % 32 := by omega

/-- The flag update made by one bit of a sprite row. -/
theorem drawBitStep_v15 (x rowY sprite bit : Nat) (s : Chip8) :
    (drawBitStep x rowY sprite bit s).v 15 =
      s.v 15 ||| (s.frame rowY ((s.v x + bit) % 64) &&& (sprite >>> (7 - bit) &&& 1)) := by
  show Function.update s.v 15
      (s.v 15 ||| (s.frame rowY ((s.v x + bit) % 256 % 64) &&& ((sprite >>> (7 - bit)) &&& 1)))
      15 = _
  rw [Function.update_same, mod256_mod64]

/-- The framebuffer update made by one bit of a sprite row. -/
theorem drawBitStep_frame (x rowY sprite bit : Nat) (s : Chip8) (R C : Nat) :
    (drawBitStep x rowY sprite bit s).frame R C =
      if R = rowY ∧ C = (s.v x + bit) % 64 then
        s.frame rowY ((s.v x + bit) % 64) ^^^ (sprite >>> (7 - bit) &&& 1)
      else s.frame R C := by
  show Function.update s.frame rowY
      (Function.update (s.frame rowY) ((s.v x + bit) % 256 % 64)
        (s.frame rowY ((s.v x + bit) % 256 % 64) ^^^ (sprite >>> (7 - bit) &&& 1))) R C = _
  rw [mod256_mod64]
  by_cases hR : R = rowY
  · subst hR
    rw [Function.update_same]
    by_cases hC : C = (s.v x + bit) % 64
    · subst hC
      rw [Function.update_same, if_pos ⟨rfl, rfl⟩]
    · rw [Function.update_noteq hC, if_neg (by tauto)]
  · rw [Function.update_noteq hR, if_neg (by tauto)]

/-- Full characterization of the inner bit loop of the sprite compositor,
for a register index x ≠ 0xF (so the column base register is not clobbered by
the running collision flag): bits c, ..., c+fuel-1 of the sprite byte are
XOR-composited onto row `rowY` at columns (Vx + bit) mod 64, every other
framebuffer cell is untouched, and VF accumulates the collision flag. -/
theorem drawBitsFrom_spec (x rowY sprite : Nat) (hx15 : x ≠ 15) :
    ∀ (fuel c : Nat) (s : Chip8), c + fuel ≤ 8 → s.v 15 ≤ 1 →
    (drawBitsFrom x rowY sprite c fuel s).v 15 ≤ 1 ∧
    ((drawBitsFrom x rowY sprite c fuel s).v 15 = 1 ↔
      (s.v 15 = 1 ∨ ∃ cc, c ≤ cc ∧ cc < c + fuel ∧
        s.frame rowY ((s.v x + cc) % 64) &&& (sprite >>> (7 - cc) &&& 1) = 1)) ∧
    (∀ cc, c ≤ cc → cc < c + fuel →
      (drawBitsFrom x rowY sprite c fuel s).frame rowY ((s.v x + cc) % 64) =
        s.frame rowY ((s.v x + cc) % 64) ^^^ (sprite >>> (7 - cc) &&& 1)) ∧
    (∀ R C, (R ≠ rowY ∨ ∀ cc, c ≤ cc → cc < c + fuel → C ≠ (s.v x + cc) % 64) →
      (drawBitsFrom x rowY sprite c fuel s).frame R C = s.frame R C) := by
  intro fuel
  induction fuel with
  | zero =>
    intro c s _ hv15
    refine ⟨hv15, ?_, fun cc h1 h2 => absurd h2 (by omega), fun R C _ => rfl⟩
    constructor
    · intro h; exact Or.inl h
    · rintro (h | ⟨cc, h1, h2, _⟩)
      · exact h
      · omega
  | succ fuel ih =>
    intro c s hc hv15
    have hvx : (drawBitStep x rowY sprite c s).v x = s.v x := drawBitStep_v (by exact hx15)
    have hv1 := drawBitStep_v15 x rowY sprite c s
    have hfr := drawBitStep_frame x rowY sprite c s
    have htermle : s.frame rowY ((s.v x + c) % 64) &&& (sprite >>> (7 - c) &&& 1) ≤ 1 :=
      term_le_one _ _ (pix_le_one _ _)
    have hv15' : (drawBitStep x rowY sprite c s).v 15 ≤ 1 := by
      rw [hv1]; exact or_le_one hv15 htermle
    obtain ⟨ih1, ih2, ih3, ih4⟩ := ih (c + 1) (drawBitStep x rowY sprite c s) (by omega) hv15'
    rw [hvx] at ih2 ih3 ih4
    simp only [drawBitsFrom]
    refine ⟨ih1, ?_, ?_, ?_⟩
    · rw [ih2]
      constructor
      · rintro (h1 | ⟨cc, hcc1, hcc2, hcc3⟩)
        · rw [hv1, or_eq_one_iff hv15 htermle] at h1
          rcases h1 with h1 | h1
          · exact Or.inl h1
          · exact Or.inr ⟨c, by omega, by omega, h1⟩
        · rw [hfr rowY ((s.v x + cc) % 64),
            if_neg (by rintro ⟨_, h⟩; exact col_ne (by omega) (by omega) (by omega) h.symm)] at hcc3
          exact Or.inr ⟨cc, by omega, by omega, hcc3⟩
      · rintro (h1 | ⟨cc, hcc1, hcc2, hcc3⟩)
        · exact Or.inl (by rw [hv1, or_eq_one_iff hv15 htermle]; exact Or.inl h1)
        · by_cases hceq : cc = c
          · subst hceq
            exact Or.inl (by rw [hv1, or_eq_one_iff hv15 htermle]; exact Or.inr hcc3)
          · refine Or.inr ⟨cc, by omega, by omega, ?_⟩
            rw [hfr rowY ((s.v x + cc) % 64),
              if_neg (by rintro ⟨_, h⟩; exact col_ne (by omega) (by omega) (by omega) h.symm)]
            exact hcc3
    · intro cc h1 h2
      by_cases hceq : cc = c
      · subst hceq
        rw [ih4 rowY ((s.v x + cc) % 64)
            (Or.inr fun cc' hcc1' _ hcc3' =>
              col_ne (by omega) (by omega) (by omega) hcc3'.symm),
          hfr rowY ((s.v x + cc) % 64), if_pos ⟨rfl, rfl⟩]
      · rw [ih3 cc (by omega) (by omega),
          hfr rowY ((s.v x + cc) % 64),
          if_neg (by rintro ⟨_, h⟩; exact col_ne (by omega) (by omega) (by omega) h.symm)]
    · intro R C hRC
      have hRC1 : ¬ (R = rowY ∧ C = (s.v x + c) % 64) := by
        rcases hRC with h | h
        · rintro ⟨h1, _⟩; exact h h1
        · rintro ⟨_, h2⟩; exact h c (by omega) (by omega) h2
      rw [ih4 R C ?_, hfr R C, if_neg hRC1]
      rcases hRC with h | h
      · exact Or.inl h
      · exact Or.inr fun cc h1 h2 => h cc (by omega) (by omega)

/-- Full characterization of the sprite row loop for x, y ≠ 0xF: rows
row, ..., row+fuel-1 of the sprite are composited at frame rows
(Vy + r) mod 32, columns (Vx + c) mod 64 with the most significant bit first;
all other cells are untouched; VF accumulates whether any composited cell had
(pixel AND sprite bit) = 1; and pc, I, memory, timers, stack and the other
registers are untouched. -/
theorem drawRowsFrom_spec (x y : Nat) (hx15 : x ≠ 15) (hy15 : y ≠ 15) :
    ∀ (fuel row : Nat) (s : Chip8), row + fuel ≤ 16 → s.v 15 ≤ 1 →
      s.i + row + fuel ≤ 4096 →
    ∃ t, drawRowsFrom x y row fuel s = .ok t ∧
      t.pc = s.pc ∧ t.i = s.i ∧ t.memory = s.memory ∧ t.sp = s.sp ∧ t.stack = s.stack ∧
      t.dt = s.dt ∧ t.st = s.st ∧ t.keypad = s.keypad ∧
      (∀ j, j ≠ 15 → t.v j = s.v j) ∧
      t.v 15 ≤ 1 ∧
      (t.v 15 = 1 ↔ (s.v 15 = 1 ∨ ∃ rr, row ≤ rr ∧ rr < row + fuel ∧ ∃ cc, cc < 8 ∧
        s.frame ((s.v y + rr) % 32) ((s.v x + cc) % 64) &&&
          (s.memory (s.i + rr) >>> (7 - cc) &&& 1) = 1)) ∧
      (∀ rr cc, row ≤ rr → rr < row + fuel → cc < 8 →
        t.frame ((s.v y + rr) % 32) ((s.v x + cc) % 64) =
          s.frame ((s.v y + rr) % 32) ((s.v x + cc) % 64) ^^^
            (s.memory (s.i + rr) >>> (7 - cc) &&& 1)) ∧
      (∀ R C, (∀ rr cc, row ≤ rr → rr < row + fuel → cc < 8 →
          ¬ (R = (s.v y + rr) % 32 ∧ C = (s.v x + cc) % 64)) →
        t.frame R C = s.frame R C) := by
  intro fuel
  induction fuel with
  | zero =>
    intro row s _ hv15 _
    refine ⟨s, rfl, rfl, rfl, rfl, rfl, rfl, rfl, rfl, rfl, fun _ _ => rfl, hv15, ?_,
      fun rr cc h1 h2 _ => absurd h2 (by omega), fun R C _ => rfl⟩
    constructor
    · intro h; exact Or.inl h
    · rintro (h | ⟨rr, h1, h2, _⟩)
      · exact h
      · omega
  | succ fuel ih =>
    intro row s hrow hv15 hbound
    have hblt : s.i + row < 4096 := by omega
    obtain ⟨hp1, hp2, hp3, hp4, hp5, hp6, hp7, hp8, hp9⟩ :=
      drawBitsFrom_pres x ((s.v y + row) % 256 % 32) (s.memory (s.i + row)) 8 0 s
    obtain ⟨b1, b2, b3, b4⟩ :=
      drawBitsFrom_spec x ((s.v y + row) % 256 % 32) (s.memory (s.i + row)) hx15 8 0 s
        (by omega) hv15
    have hvy := hp9 y hy15
    have hvx := hp9 x hx15
    obtain ⟨t, hrun, g1, g2, g3, g4, g5, g6, g7, g8, g9, g10, g11, g12, g13⟩ :=
      ih (row + 1) (drawBitsFrom x ((s.v y + row) % 256 % 32) (s.memory (s.i + row)) 0 8 s)
        (by omega) b1 (by rw [hp2]; omega)
    rw [hvy, hvx] at g11 g12 g13
    rw [hp2, hp3] at g11 g12
    refine ⟨t, ?_, ?_, ?_, ?_, ?_, ?_, ?_, ?_, ?_, ?_, g10, ?_, ?_, ?_⟩
    · simp only [drawRowsFrom, if_pos hblt]
      exact hrun
    · rw [g1, hp1]
    · rw [g2, hp2]
    · rw [g3, hp3]
    · rw [g4, hp4]
    · rw [g5, hp5]
    · rw [g6, hp6]
    · rw [g7, hp7]
    · rw [g8, hp8]
    · intro j hj
      rw [g9 j hj, hp9 j hj]
    · rw [g11]
      constructor
      · rintro (h1 | ⟨rr, hr1, hr2, cc, hc1, hc2⟩)
        · rw [b2] at h1
          rw [mod256_mod32] at h1
          rcases h1 with h1 | ⟨cc, _, hc1, hc2⟩
          · exact Or.inl h1
          · exact Or.inr ⟨row, by omega, by omega, cc, by omega, hc2⟩
        · rw [b4 ((s.v y + rr) % 32) ((s.v x + cc) % 64)
            (Or.inl (by rw [mod256_mod32]
                        exact row_ne (by omega) (by omega) (by omega)))] at hc2
          exact Or.inr ⟨rr, by omega, by omega, cc, hc1, hc2⟩
      · rintro (h1 | ⟨rr, hr1, hr2, cc, hc1, hc2⟩)
        · refine Or.inl ?_
          rw [b2]
          exact Or.inl h1
        · by_cases hreq : rr = row
          · subst hreq
            refine Or.inl ?_
            rw [b2, mod256_mod32]
            exact Or.inr ⟨cc, by omega, by omega, hc2⟩
          · refine Or.inr ⟨rr, by omega, by omega, cc, hc1, ?_⟩
            rw [b4 ((s.v y + rr) % 32) ((s.v x + cc) % 64)
              (Or.inl (by rw [mod256_mod32]
                          exact row_ne (by omega) (by omega) (by omega)))]
            exact hc2
    · intro rr cc h1 h2 h3
      by_cases hreq : rr = row
      · subst hreq
        rw [← mod256_mod32 (s.v y + rr)]
        rw [g13 ((s.v y + rr) % 256 % 32) ((s.v x + cc) % 64)
            (fun rr' cc' hr1' hr2' hc' => by
              rintro ⟨hR, _⟩
              rw [mod256_mod32] at hR
              exact row_ne (by omega) (by omega) (by omega) hR)]
        exact b3 cc (by omega) (by omega)
      · rw [g12 rr cc (by omega) (by omega) h3,
          b4 ((s.v y + rr) % 32) ((s.v x + cc) % 64)
            (Or.inl (by rw [mod256_mod32]
                        exact row_ne (by omega) (by omega) (by omega)))]
    · intro R C hRC
      rw [g13 R C (fun rr' cc' hr1' hr2' hc' =>
          hRC rr' cc' (by omega) (by omega) hc')]
      by_cases hR : R = (s.v y + row) % 256 % 32
      · rw [b4 R C (Or.inr fun cc' _ hc2' => by
          intro hCeq
          refine hRC row cc' (by omega) (by omega) (by omega) ⟨?_, hCeq⟩
          rw [hR, mod256_mod32])]
      · rw [b4 R C (Or.inl hR)]

/-- Machine state with one set pixel at (0,0), a solid 0xFF sprite byte at
0x300, and all registers zero. -/
def stateC5 : Chip8 :=
  { chip8_new with
    i := 0x300
    frame := fun R C => if R = 0 ∧ C = 0 then 1 else 0
    memory := fun a => if a = 0x300 then 0xFF else 0 }

/-- C5 counterexample: opcode DF01 (x = 0xF) draws the solid sprite byte at
column base VF = 0, but the collision at bit 0 sets VF to 1 mid-draw and the
handler re-reads `v[x]` every iteration, so bit 1 lands at column 2 instead
of column 1: the framebuffer cell at row (V0+0) mod 32 = 0, column
(VF+1) mod 64 = 1 stays 0, while the claim demands
frame XOR sprite-bit = 0 XOR 1 = 1 there. -/
theorem C5_counterexample :
    (run_op_code 0 0xDF01 stateC5).map (fun t => t.frame 0 1) = .ok 0 ∧
    stateC5.frame ((stateC5.v 0 + 0) % 32) ((stateC5.v 15 + 1) % 64) ^^^
      (stateC5.memory (stateC5.i + 0) >>> (7 - 1) &&& 1) = 1 ∧
    (0 : Nat) ≠ 1 :=
  ⟨rfl, rfl, by decide⟩

/-- C5 (amended): for register indices x, y other than 0xF (for x = 0xF or
y = 0xF the running collision flag feeds back into the coordinates), a 1-bit
framebuffer, and I + n within memory bounds, Dxyn XOR-composites the n sprite
bytes memory[I..I+n): sprite row r bit c (most significant first) lands at
frame row (Vy + r) mod 32, column (Vx + c) mod 64; every other cell is
unchanged; VF ends 1 iff some composited cell had pre-draw pixel 1 and sprite
bit 1, and 0 otherwise; registers besides VF, pc (standard clamped advance),
I and memory are untouched. -/
theorem C5_drw_sprite (r x y n : Nat) (s : Chip8)
    (hx : x < 16) (hy : y < 16) (hn : n < 16) (hx15 : x ≠ 15) (hy15 : y ≠ 15)
    (hframe : ∀ R C, s.frame R C ≤ 1) (hb : s.i + n ≤ 4096) :
    ∃ t, run_op_code r (0xD000 + x * 256 + y * 16 + n) s = .ok t ∧
      (∀ rr cc, rr < n → cc < 8 →
        t.frame ((s.v y + rr) % 32) ((s.v x + cc) % 64) =
          s.frame ((s.v y + rr) % 32) ((s.v x + cc) % 64) ^^^
            (s.memory (s.i + rr) >>> (7 - cc) &&& 1)) ∧
      (∀ R C, (∀ rr cc, rr < n → cc < 8 →
          ¬ (R = (s.v y + rr) % 32 ∧ C = (s.v x + cc) % 64)) →
        t.frame R C = s.frame R C) ∧
      (t.v 15 = 1 ↔ ∃ rr, rr < n ∧ ∃ cc, cc < 8 ∧
        s.frame ((s.v y + rr) % 32) ((s.v x + cc) % 64) = 1 ∧
        s.memory (s.i + rr) >>> (7 - cc) &&& 1 = 1) ∧
      ((¬ ∃ rr, rr < n ∧ ∃ cc, cc < 8 ∧
        s.frame ((s.v y + rr) % 32) ((s.v x + cc) % 64) = 1 ∧
        s.memory (s.i + rr) >>> (7 - cc) &&& 1 = 1) → t.v 15 = 0) ∧
      (∀ j, j ≠ 15 → t.v j = s.v j) ∧
      t.pc = nextPC s.pc ∧ t.i = s.i ∧ t.memory = s.memory := by
  have e1 : (0xD000 + x * 256 + y * 16 + n) / 4096 % 16 = 13 := by omega
  have e2 : (0xD000 + x * 256 + y * 16 + n) / 256 % 16 = x := by omega
  have e3 : (0xD000 + x * 256 + y * 16 + n) / 16 % 16 = y := by omega
  have e4 : (0xD000 + x * 256 + y * 16 + n) % 16 = n := by omega
  rw [run_op_code_drw r _ s e1, e2, e3, e4]
  unfold drw_vx_vy_nibble
  have hv0y : Function.update s.v 15 0 y = s.v y := Function.update_noteq hy15 0 s.v
  have hv0x : Function.update s.v 15 0 x = s.v x := Function.update_noteq hx15 0 s.v
  have hv015 : Function.update s.v 15 0 15 = 0 := Function.update_same 15 0 s.v
  obtain ⟨t, hrun, hpc, hi, hmem, _, _, _, _, _, hvj, hv15le, hviff, htouch, huntouch⟩ :=
    drawRowsFrom_spec x y hx15 hy15 n 0 { s with v := Function.update s.v 15 0 }
      (by omega) (by show Function.update s.v 15 0 15 ≤ 1; rw [hv015]; omega)
      (by show s.i + 0 + n ≤ 4096; omega)
  have hfr0 : ({ s with v := Function.update s.v 15 0 } : Chip8).frame = s.frame := rfl
  have hi0 : ({ s with v := Function.update s.v 15 0 } : Chip8).i = s.i := rfl
  have hm0 : ({ s with v := Function.update s.v 15 0 } : Chip8).memory = s.memory := rfl
  have hvy0 : ({ s with v := Function.update s.v 15 0 } : Chip8).v y = s.v y := hv0y
  have hvx0 : ({ s with v := Function.update s.v 15 0 } : Chip8).v x = s.v x := hv0x
  have hv150 : ({ s with v := Function.update s.v 15 0 } : Chip8).v 15 = 0 := hv015
  rw [hvy0, hvx0, hfr0, hi0, hm0, hv150] at hviff
  rw [hvy0, hvx0, hfr0, hi0, hm0] at htouch
  rw [hvy0, hvx0, hfr0] at huntouch
  rw [hrun]
  simp only [Except.map]
  refine ⟨next_program t, rfl, ?_, ?_, ?_, ?_, ?_, ?_, ?_, ?_⟩
  · intro rr cc h1 h2
    exact htouch rr cc (by omega) (by omega) h2
  · intro R C hRC
    exact huntouch R C fun rr cc h1 h2 h3 => hRC rr cc (by omega) h3
  · show t.v 15 = 1 ↔ _
    rw [hviff]
    constructor
    · rintro (h | ⟨rr, hr1, hr2, cc, hc1, hc2⟩)
      · exact absurd h (by decide)
      · rw [and_eq_one_iff (hframe _ _) (pix_le_one _ _)] at hc2
        exact ⟨rr, by omega, cc, hc1, hc2.1, hc2.2⟩
    · rintro ⟨rr, hr1, cc, hc1, hf1, hb1⟩
      refine Or.inr ⟨rr, by omega, by omega, cc, hc1, ?_⟩
      rw [and_eq_one_iff (hframe _ _) (pix_le_one _ _)]
      exact ⟨hf1, hb1⟩
  · intro hno
    have h1 : t.v 15 ≠ 1 := by
      intro heq
      rw [hviff] at heq
      rcases heq with h | ⟨rr, hr1, hr2, cc, hc1, hc2⟩
      · exact absurd h (by decide)
      · rw [and_eq_one_iff (hframe _ _) (pix_le_one _ _)] at hc2
        exact hno ⟨rr, by omega, cc, hc1, hc2.1, hc2.2⟩
    show t.v 15 = 0
    omega
  · intro j hj
    show t.v j = s.v j
    rw [hvj j hj]
    exact Function.update_noteq hj 0 s.v
  · show nextPC t.pc = nextPC s.pc
    rw [hpc]
  · exact hi
  · exact hmem

/-- C5 witness: the theorem applied to opcode D011 (x = 0, y = 1, n = 1) at
the initial state. -/
theorem C5_witness :
    (∀ R C, chip8_new.frame R C ≤ 1) ∧ chip8_new.i + 1 ≤ 4096 ∧
    (∃ t, run_op_code 0 (0xD000 + 0 * 256 + 1 * 16 + 1) chip8_new = .ok t ∧
      (∀ rr cc, rr < 1 → cc < 8 →
        t.frame ((chip8_new.v 1 + rr) % 32) ((chip8_new.v 0 + cc) % 64) =
          chip8_new.frame ((chip8_new.v 1 + rr) % 32) ((chip8_new.v 0 + cc) % 64) ^^^
            (chip8_new.memory (chip8_new.i + rr) >>> (7 - cc) &&& 1)) ∧
      (∀ R C, (∀ rr cc, rr < 1 → cc < 8 →
          ¬ (R = (chip8_new.v 1 + rr) % 32 ∧ C = (chip8_new.v 0 + cc) % 64)) →
        t.frame R C = chip8_new.frame R C) ∧
      (t.v 15 = 1 ↔ ∃ rr, rr < 1 ∧ ∃ cc, cc < 8 ∧
        chip8_new.frame ((chip8_new.v 1 + rr) % 32) ((chip8_new.v 0 + cc) % 64) = 1 ∧
        chip8_new.memory (chip8_new.i + rr) >>> (7 - cc) &&& 1 = 1) ∧
      ((¬ ∃ rr, rr < 1 ∧ ∃ cc, cc < 8 ∧
        chip8_new.frame ((chip8_new.v 1 + rr) % 32) ((chip8_new.v 0 + cc) % 64) = 1 ∧
        chip8_new.memory (chip8_new.i + rr) >>> (7 - cc) &&& 1 = 1) → t.v 15 = 0) ∧
      (∀ j, j ≠ 15 → t.v j = chip8_new.v j) ∧
      t.pc = nextPC chip8_new.pc ∧ t.i = chip8_new.i ∧ t.memory = chip8_new.memory) :=
  ⟨fun _ _ => Nat.zero_le 1, by decide,
   C5_drw_sprite 0 0 1 1 chip8_new (by decide) (by decide) (by decide) (by decide)
     (by decide) (fun _ _ => Nat.zero_le 1) (by decide)⟩
